import Mathlib

/-!
Shallow embedding of the bns DNS wire codec (src/lib/encoding.js, src/lib/util.js,
src/lib/wire.js) and proofs about the specified properties.

Buffers are `List Nat` of byte values; JavaScript exceptions are modelled with
`Except Err`.  Loops from the source are modelled as fuel-based recursions; the
fuel supplied is always sufficient for the loop bounds of the source, so an
out-of-fuel result never occurs on the inputs considered and is just another
error value.  The external `bufio` buffer reader/writer and Node's
`Buffer.writeUInt16BE` are modelled by their documented semantics (bounds- and
range-checked big-endian accessors over a fixed-size buffer).
-/

set_option maxRecDepth 8000

namespace Bns

abbrev Err := String

instance exceptDecEq {e a : Type} [DecidableEq e] [DecidableEq a] :
    DecidableEq (Except e a) := fun x y => by
  cases x <;> cases y
  case error.error u v => exact decidable_of_iff (u = v) (by simp)
  case error.ok u v => exact isFalse (by simp)
  case ok.error u v => exact isFalse (by simp)
  case ok.ok u v => exact decidable_of_iff (u = v) (by simp)

/-- Compression map (`Map` in the source): insertion-ordered association list
from label-suffix strings to buffer offsets. -/
abbrev CompMap := List (String × Nat)

def CompMap.find : CompMap → String → Option Nat
  | [], _ => none
  | (k, v) :: rest, s => if k = s then some v else CompMap.find rest s

/-- JS `s.charCodeAt(i)` for the ASCII strings handled here. -/
def charCodeAt (s : String) (i : Nat) : Nat :=
  (s.data.getD i (Char.ofNat 0)).toNat

/-- `Buffer.from(name, 'ascii')`: each UTF-16 code unit is truncated to a byte. -/
def strBytes (s : String) : List Nat :=
  s.data.map (fun c => c.toNat % 256)

/-- `buf.toString('ascii', 0, nl)`: Node strips the high bit when decoding ascii. -/
def asciiOfBytes (bs : List Nat) : String :=
  ⟨bs.map (fun b => Char.ofNat (b % 128))⟩

/-- JS `s.substring(k)`. -/
def strFrom (s : String) (k : Nat) : String :=
  ⟨s.data.drop k⟩

/-- Node `buf.writeUInt16BE(value, offset)`: range-checks both the value and the
offset, then stores the two big-endian bytes. -/
def jsWriteU16BE (data : List Nat) (value off : Nat) : Except Err (List Nat) :=
  if value ≤ 0xffff ∧ off + 2 ≤ data.length then
    .ok ((data.set off ((value >>> 8) &&& 0xff)).set (off + 1) (value &&& 0xff))
  else
    .error "RangeError: writeUInt16BE out of range"

/-- `isDigit` from encoding.js. -/
def isDigitB (ch : Nat) : Bool :=
  0x30 ≤ ch ∧ ch ≤ 0x39

/-- `toByte` from encoding.js: the value of three decimal digit bytes. -/
def toByteAt (n : List Nat) (i : Nat) : Nat :=
  (n.getD i 0 - 0x30) * 100 + (n.getD (i + 1) 0 - 0x30) * 10 + (n.getD (i + 2) 0 - 0x30)

/-- The in-place shift loops of `writeName`
(`for (let j = start; j < start + cnt; j++) n[j] = n[j + k]`). -/
def shiftSeg (k : Nat) : List Nat → Nat → Nat → List Nat
  | n, _, 0 => n
  | n, j, cnt + 1 => shiftSeg k (n.set j (n.getD (j + k) 0)) (j + 1) cnt

/-- State of the main loop of `encoding.writeName`. -/
structure WNSt where
  n : List Nat
  nl : Nat
  i : Nat
  off : Nat
  beg : Nat
  labels : Nat
  fresh : Bool
  escaped : Bool
  nmstr : String
  dat : Option (List Nat)
  map : Option CompMap
  posPtr : Option (Nat × Nat)
  deriving Repr, DecidableEq

/-- The label-copy loop of `writeName`
(`for (let j = begin; j < i; j++) { EOF check; data[off] = n[j]; off += 1 }`). -/
def copyLabel (len : Nat) (n : List Nat) :
    Option (List Nat) → Nat → Nat → Nat → Except Err (Option (List Nat) × Nat)
  | dat, off, _, 0 => .ok (dat, off)
  | dat, off, j, cnt + 1 =>
    if len < off + 1 then .error "EOF"
    else copyLabel len n (dat.map (fun d => d.set off (n.getD j 0))) (off + 1) (j + 1) cnt

/-- Main loop of `encoding.writeName` (encoding.js lines 90-170), one step per
fuel unit.  `posPtr` records the `pos`/`ptr` pair of the compression `break`. -/
def wnLoop (cmp : Bool) (len : Nat) : Nat → WNSt → Except Err WNSt
  | 0, _ => .error "writeName: out of fuel"
  | fuel + 1, st =>
    if st.nl ≤ st.i then .ok st else
    let c := st.n.getD st.i 0
    if c = 0x5c then
      -- escape: shift the remainder left over the backslash
      let n1 := shiftSeg 1 st.n st.i (st.nl - 1 - st.i)
      let nl1 := st.nl - 1
      if len < st.off + 1 then .error "EOF" else
      if st.i + 2 < nl1 && isDigitB (n1.getD st.i 0) && isDigitB (n1.getD (st.i + 1) 0)
          && isDigitB (n1.getD (st.i + 2) 0) then
        let n2 := n1.set st.i (toByteAt n1 st.i % 256)
        let n3 := shiftSeg 2 n2 (st.i + 1) (nl1 - 2 - (st.i + 1))
        wnLoop cmp len fuel
          { st with n := n3, nl := nl1 - 2, i := st.i + 1, escaped := true, fresh := false }
      else
        wnLoop cmp len fuel
          { st with n := n1, nl := nl1, i := st.i + 1, escaped := true, fresh := false }
    else if c = 0x2e then
      if 0 < st.i && st.n.getD (st.i - 1) 0 = 0x2e && !st.escaped then
        .error "Multiple dots"
      else if 64 ≤ st.i - st.beg then .error "Bad top bits"
      else if len < st.off + 1 then .error "EOF"
      else
        let dat1 := st.dat.map (fun d => d.set st.off ((st.i - st.beg) % 256))
        let offset0 := st.off
        match copyLabel len st.n dat1 (st.off + 1) st.beg (st.i - st.beg) with
        | .error e => .error e
        | .ok (dat2, off2) =>
          let (nm1, fresh1) :=
            if cmp && !st.fresh then (asciiOfBytes (st.n.take st.nl), true)
            else (st.nmstr, st.fresh)
          let next := fun (map2 : Option CompMap) =>
            wnLoop cmp len fuel
              { st with dat := dat2, off := off2, nmstr := nm1, fresh := fresh1,
                        map := map2, labels := st.labels + 1, beg := st.i + 1,
                        escaped := false, i := st.i + 1 }
          match st.map with
          | none => next none
          | some m =>
            let s := strFrom nm1 st.beg
            if s = "." then next (some m)
            else
              match CompMap.find m s with
              | none =>
                if offset0 < 16384 then next (some (m ++ [(s, offset0)]))
                else next (some m)
              | some p =>
                if cmp && st.posPtr = none then
                  .ok { st with dat := dat2, off := off2, nmstr := nm1, fresh := fresh1,
                                posPtr := some (offset0, p) }
                else next (some m)
    else
      wnLoop cmp len fuel { st with escaped := false, i := st.i + 1 }

/-- Result of `encoding.writeName`: the (possibly) updated buffer, the new
offset, the label count, and the (possibly) updated compression map. -/
structure WNOut where
  dat : Option (List Nat)
  off : Nat
  labels : Nat
  map : Option CompMap
  deriving Repr, DecidableEq

/-- `encoding.writeName(data, name, off, map, cmp)`.  A `none` buffer is the
size-computation mode (`data == null`, `len = 256`). -/
def writeName (dat : Option (List Nat)) (name : String) (off : Nat)
    (map : Option CompMap) (cmp : Bool) : Except Err WNOut :=
  let len := match dat with | some d => d.length | none => 256
  if 254 < name.length then .error "assert: name.length <= 254" else
  if name.length = 0 then
    -- source line 65 returns a bare number here; the callers destructure a
    -- pair, so the call site throws a TypeError
    .error "TypeError: writeName result is not iterable"
  else
  let appendDot := dat = none && name.data.getLast? ≠ some '.'
  if dat ≠ none && name.data.getLast? ≠ some '.' then .error "No dot" else
  let name1 := if appendDot then name ++ "." else name
  let nl1 := name1.length
  let n := strBytes name1
  if n.length ≠ nl1 then .error "Bad ascii string" else
  match wnLoop cmp len (2 * nl1 + 4)
      { n := n, nl := nl1, i := 0, off := off, beg := 0, labels := 0, fresh := true,
        escaped := false, nmstr := name1, dat := dat, map := map, posPtr := none } with
  | .error e => .error e
  | .ok st =>
    if st.n.length = 1 && st.n.getD 0 0 = 0x2e then
      .ok ⟨st.dat, st.off, st.labels, st.map⟩
    else
      match st.posPtr with
      | some (pos, p) =>
        match st.dat with
        | some d =>
          -- source line 177: `data.writeUInt16BE(pos, ptr ^ 0xc000, true)` --
          -- the value written is `pos` and the target offset is `ptr ^ 0xc000`
          match jsWriteU16BE d pos (p ^^^ 0xc000) with
          | .error e => .error e
          | .ok d1 => .ok ⟨some d1, pos + 2, st.labels, st.map⟩
        | none => .ok ⟨none, pos + 2, st.labels, st.map⟩
      | none =>
        let dat1 := if st.off < len then st.dat.map (fun d => d.set st.off 0) else st.dat
        .ok ⟨dat1, st.off + 1, st.labels, st.map⟩

/-- `encoding.sizeName(name, map, cmp)`: `writeName` with a null buffer. -/
def sizeName (name : String) (map : Option CompMap) (cmp : Bool) : Except Err Nat :=
  match writeName none name 0 map cmp with
  | .error e => .error e
  | .ok out => .ok out.off

/-- `toDDD` from encoding.js (for a byte value, so always three digits). -/
def toDDD (b : Nat) : List Char :=
  [Char.ofNat (0x30 + b / 100), Char.ofNat (0x30 + b / 10 % 10), Char.ofNat (0x30 + b % 10)]

/-- The reserved presentation escape set of `readName`. -/
def reservedByte (b : Nat) : Bool :=
  b = 0x2e || b = 0x28 || b = 0x29 || b = 0x3b || b = 0x20 || b = 0x40 || b = 0x22 || b = 0x5c

/-- One content byte of a label in `encoding.readName` (lines 216-241):
append its presentation characters and adjust `max` for escapes. -/
def charStep (b : Nat) (name : List Char) (max : Nat) : List Char × Nat :=
  if reservedByte b then (name ++ ['\\', Char.ofNat b], max + 1)
  else if b < 0x20 || 0x7e < b then (name ++ '\\' :: toDDD b, max + 3)
  else (name ++ [Char.ofNat b], max)

/-- The per-label character loop of `encoding.readName` (lines 215-244):
transfers `c` content bytes into the presentation string, adjusting `max`
for escapes and rejecting overlong names. -/
def readLabel (data : List Nat) : Nat → List Char → Nat → Nat → Except Err (List Char × Nat)
  | _, name, max, 0 => .ok (name, max)
  | j, name, max, c + 1 =>
    let (name1, max1) := charStep (data.getD j 0) name max
    if max1 ≤ name1.length then .error "Max name length exceeded"
    else readLabel data (j + 1) name1 max1 c

/-- State of the main loop of `encoding.readName`.  `wlen` is ghost
instrumentation counting the wire octets (length bytes plus content bytes,
excluding the terminal zero) contributed to the reconstructed name; `ptrs`
mirrors the source's `ptr` counter. -/
structure RNSt where
  off : Nat
  res : Nat
  name : List Char
  max : Nat
  ptrs : Nat
  wlen : Nat
  deriving Repr, DecidableEq

/-- Main loop of `encoding.readName` (encoding.js lines 199-277). -/
def rnLoop (data : List Nat) : Nat → RNSt → Except Err RNSt
  | 0, _ => .error "readName: out of fuel"
  | fuel + 1, st =>
    if data.length ≤ st.off then .error "EOF" else
    let c := data.getD st.off 0
    let off1 := st.off + 1
    if c = 0 then
      .ok { st with off := off1, res := if st.ptrs = 0 then off1 else st.res }
    else if c &&& 0xc0 = 0x00 then
      if data.length < off1 + c then .error "EOF" else
      match readLabel data off1 st.name st.max c with
      | .error e => .error e
      | .ok (nm, mx) =>
        rnLoop data fuel
          { st with off := off1 + c, name := nm ++ ['.'], max := mx,
                    wlen := st.wlen + 1 + c }
    else if c &&& 0xc0 = 0xc0 then
      if data.length ≤ off1 then .error "EOF" else
      let c1 := data.getD off1 0
      let off2 := off1 + 1
      let res1 := if st.ptrs = 0 then off2 else st.res
      let p1 := st.ptrs + 1
      if 10 < p1 then .error "Too many pointers"
      else rnLoop data fuel { st with off := ((c ^^^ 0xc0) <<< 8) ||| c1, res := res1, ptrs := p1 }
    else
      .error "Bad character"

/-- `encoding.readName(data, off)` with its final state exposed. -/
def readNameStats (data : List Nat) (off : Nat) : Except Err RNSt :=
  rnLoop data (12 * (data.length + 2) + 2)
    { off := off, res := 0, name := [], max := 255, ptrs := 0, wlen := 0 }

/-- `encoding.readName(data, off)`: returns `[res, name]`. -/
def readName (data : List Nat) (off : Nat) : Except Err (Nat × String) :=
  match readNameStats data off with
  | .error e => .error e
  | .ok st =>
    let name := if st.name = [] then ['.'] else st.name
    if st.max ≤ name.length then .error "Max name length exceeded"
    else .ok (st.res, ⟨name⟩)

/-- `util.equal` inner loop (util.js lines 183-195).  Note line 185 of the
source reads `bi` from `a`, not from `b`; `b` is faithfully unused here. -/
def equalLoop (a b : String) : Nat → Bool
  | 0 => true
  | i + 1 =>
    let ai0 := charCodeAt a i
    let bi0 := charCodeAt a i
    let ai := if 0x41 ≤ ai0 && ai0 ≤ 0x5a then ai0 ||| 0x20 else ai0
    let bi := if 0x41 ≤ bi0 && bi0 ≤ 0x5a then bi0 ||| 0x20 else bi0
    if ai ≠ bi then false else equalLoop a b i

/-- `util.equal(a, b)`. -/
def equal (a b : String) : Bool :=
  if a.length ≠ b.length then false else equalLoop a b a.length

/-- `util.isFQDN(s)`. -/
def isFQDN (s : String) : Bool :=
  if s.length = 0 then false else s.data.getLast? = some '.'

/-- `util.fqdn(s)` as written in util.js lines 216-221: when `s` is already
fully qualified it strips the trailing dot, otherwise it returns `s`
unchanged. -/
def fqdn (s : String) : String :=
  if !isFQDN s then s else ⟨s.data.dropLast⟩

end Bns

namespace Bns

/-!
wire.js.  The file src/lib/constants.js is not part of src/; the numeric
values of the record types, classes and flags below are modelled from the
spec (§6, which enumerates the supported types and the flag bit constants and
defers to RFC 1035 and successors for the standard code points).
-/

namespace types

/-- Modelled from the spec: record-type code points (§6, RFC registry). -/
def UNKNOWN : Nat := 0

def A : Nat := 1

def CNAME : Nat := 5

def SIG : Nat := 24

def OPT : Nat := 41

def TSIG : Nat := 250

def ANY : Nat := 255

end types

namespace classes

/-- Modelled from the spec: class code points (IN and ANY). -/
def IN : Nat := 1

def ANY : Nat := 255

end classes

/-- TC flag bit (spec §6: TC=0x0200). -/
def flagsTC : Nat := 0x0200

/-- MAX_UDP_SIZE (spec §6). -/
def MAX_UDP_SIZE : Nat := 512

/-- bufio buffer reader. -/
structure BufReader where
  data : List Nat
  offset : Nat
  deriving Repr, DecidableEq

def BufReader.left (br : BufReader) : Nat :=
  br.data.length - br.offset

def BufReader.readU8 (br : BufReader) : Except Err (Nat × BufReader) :=
  if br.offset + 1 ≤ br.data.length then
    .ok (br.data.getD br.offset 0, { br with offset := br.offset + 1 })
  else .error "EOF: readU8"

def BufReader.readU16BE (br : BufReader) : Except Err (Nat × BufReader) :=
  if br.offset + 2 ≤ br.data.length then
    .ok ((br.data.getD br.offset 0) * 0x100 + br.data.getD (br.offset + 1) 0,
         { br with offset := br.offset + 2 })
  else .error "EOF: readU16BE"

def BufReader.readU32BE (br : BufReader) : Except Err (Nat × BufReader) :=
  if br.offset + 4 ≤ br.data.length then
    .ok ((br.data.getD br.offset 0) * 0x1000000 + (br.data.getD (br.offset + 1) 0) * 0x10000 +
         (br.data.getD (br.offset + 2) 0) * 0x100 + br.data.getD (br.offset + 3) 0,
         { br with offset := br.offset + 4 })
  else .error "EOF: readU32BE"

def BufReader.readBytes (br : BufReader) (n : Nat) : Except Err (List Nat × BufReader) :=
  if br.offset + n ≤ br.data.length then
    .ok ((br.data.drop br.offset).take n, { br with offset := br.offset + n })
  else .error "EOF: readBytes"

/-- `encoding.readNameBR(br)`. -/
def readNameBR (br : BufReader) : Except Err (String × BufReader) :=
  match readName br.data br.offset with
  | .error e => .error e
  | .ok (res, name) => .ok (name, { br with offset := res })

/-- bufio static writer: a fixed-size buffer and a cursor. -/
structure Writer where
  data : List Nat
  offset : Nat
  deriving Repr, DecidableEq

def Writer.writeU8 (bw : Writer) (v : Nat) : Except Err Writer :=
  if v ≤ 0xff ∧ bw.offset + 1 ≤ bw.data.length then
    .ok ⟨bw.data.set bw.offset v, bw.offset + 1⟩
  else .error "RangeError: writeU8"

def Writer.writeU16BE (bw : Writer) (v : Nat) : Except Err Writer :=
  if v ≤ 0xffff ∧ bw.offset + 2 ≤ bw.data.length then
    .ok ⟨(bw.data.set bw.offset ((v >>> 8) &&& 0xff)).set (bw.offset + 1) (v &&& 0xff),
         bw.offset + 2⟩
  else .error "RangeError: writeU16BE"

def Writer.writeU32BE (bw : Writer) (v : Nat) : Except Err Writer :=
  if v ≤ 0xffffffff ∧ bw.offset + 4 ≤ bw.data.length then
    .ok ⟨(((bw.data.set bw.offset ((v >>> 24) &&& 0xff)).set
            (bw.offset + 1) ((v >>> 16) &&& 0xff)).set
            (bw.offset + 2) ((v >>> 8) &&& 0xff)).set
            (bw.offset + 3) (v &&& 0xff),
         bw.offset + 4⟩
  else .error "RangeError: writeU32BE"

def setBytes : List Nat → Nat → List Nat → List Nat
  | d, _, [] => d
  | d, off, b :: bs => setBytes (d.set off b) (off + 1) bs

def Writer.writeBytes (bw : Writer) (bs : List Nat) : Except Err Writer :=
  if bw.offset + bs.length ≤ bw.data.length then
    .ok ⟨setBytes bw.data bw.offset bs, bw.offset + bs.length⟩
  else .error "EOF: writeBytes"

/-- bufio `StaticWriter.render()`: asserts the buffer was filled exactly. -/
def Writer.render (bw : Writer) : Except Err (List Nat) :=
  if bw.offset = bw.data.length then .ok bw.data
  else .error "assert: offset === data.length"

/-- `encoding.writeNameBW(bw, name, map, cmp)`.  The message codec always
passes a null compression map (the `encode()` path) and never passes `cmp`,
so the embedding of the message layer fixes `map = none`, `cmp = false`;
with `cmp = false` the map contents never influence any emitted byte. -/
def writeNameBW (bw : Writer) (name : String) (map : Option CompMap) (cmp : Bool) :
    Except Err (Writer × Nat) :=
  match writeName (some bw.data) name bw.offset map cmp with
  | .error e => .error e
  | .ok out => .ok (⟨out.dat.getD bw.data, out.off⟩, out.labels)

/-- Record data (`RecordData` subclasses of wire.js).  The embedding models
the variants exercised by the claims: UNKNOWN (uninterpreted bytes), A, CNAME, OPT
and TSIG.  EDNS option payloads are kept as raw `(code, data)` pairs, which
is the behavior of the UNKNOWN/LOCAL option branches. -/
inductive RecordData where
  | unknown (data : List Nat)
  | a (address : List Nat)
  | cname (target : String)
  | opt (options : List (Nat × List Nat))
  | tsig (algorithm : String) (timeSigned : Nat) (fudge : Nat) (mac : List Nat)
         (origID : Nat) (errCode : Nat) (other : List Nat)
  deriving Repr, DecidableEq

/-- Per-variant `getSize(map, insert)` with the message codec's null map.
The A record size is 4 (`writeIP(bw, addr, 4)`; `writeIP` is absent from
src/lib/encoding.js and is modelled from the spec's inet4 field kind, §4.3). -/
def RecordData.getSize : RecordData → Except Err Nat
  | .unknown d => .ok d.length
  | .a _ => .ok 4
  | .cname t => sizeName t none false
  | .opt opts => .ok (opts.foldl (fun acc o => acc + (4 + o.2.length)) 0)
  | .tsig alg _ _ mac _ _ other => do
    let s ← sizeName alg none false
    .ok (16 + s + mac.length + other.length)

/-- Per-variant `write(bw, map)` with the message codec's null map. -/
def RecordData.write : RecordData → Writer → Except Err Writer
  | .unknown d, bw => bw.writeBytes d
  | .a addr, bw => bw.writeBytes addr
  | .cname t, bw => do
    let (bw, _) ← writeNameBW bw t none false
    .ok bw
  | .opt opts, bw =>
    opts.foldlM (fun bw o => do
      let bw ← bw.writeU16BE o.1
      let bw ← bw.writeU16BE o.2.length
      bw.writeBytes o.2) bw
  | .tsig alg ts fudge mac oid ec other, bw => do
    let (bw, _) ← writeNameBW bw alg none false
    let bw ← bw.writeU16BE (ts / 0x100000000)
    let bw ← bw.writeU32BE (ts % 0x100000000)
    let bw ← bw.writeU16BE fudge
    let bw ← bw.writeU16BE mac.length
    let bw ← bw.writeBytes mac
    let bw ← bw.writeU16BE oid
    let bw ← bw.writeU16BE ec
    let bw ← bw.writeU16BE other.length
    bw.writeBytes other

def readUnknownData (br : BufReader) : Except Err (RecordData × BufReader) := do
  let (d, br) ← br.readBytes br.left
  .ok (.unknown d, br)

/-- Modelled from the spec: `ARecord.read` calls `readIP(br, 4)` (absent from
src/lib/encoding.js); the inet4 field kind of §4.3 reads four octets. -/
def readAData (br : BufReader) : Except Err (RecordData × BufReader) := do
  let (d, br) ← br.readBytes 4
  .ok (.a d, br)

def readCnameData (br : BufReader) : Except Err (RecordData × BufReader) := do
  let (t, br) ← readNameBR br
  .ok (.cname t, br)

/-- The `while (br.left())` option loop of `OPTRecord.read` together with
`Option.read`/`readOption`: code (u16), size (u16), then the payload parsed
from a sub-reader bounded by `offset + size`, after which
`br.offset = cbr.offset` (wire.js readOption).  Payloads are kept raw. -/
def readOptionsLoop : Nat → BufReader → List (Nat × List Nat) →
    Except Err (List (Nat × List Nat) × BufReader)
  | 0, br, acc => if br.left = 0 then .ok (acc, br) else .error "readOptions: out of fuel"
  | fuel + 1, br, acc =>
    if br.left = 0 then .ok (acc, br)
    else do
      let (code, br) ← br.readU16BE
      let (size, br) ← br.readU16BE
      let offset := br.offset
      let len := offset + size
      if ¬ len ≤ br.data.length then .error "assert: len <= data.length" else do
      let cbr : BufReader := ⟨br.data.take len, offset⟩
      let (odata, cbr) ← cbr.readBytes cbr.left
      let br := { br with offset := cbr.offset }
      readOptionsLoop fuel br (acc ++ [(code, odata)])

def readOptData (br : BufReader) : Except Err (RecordData × BufReader) := do
  let (os, br) ← readOptionsLoop (br.left + 1) br []
  .ok (.opt os, br)

/-- `TSIGRecord.read`. -/
def readTsigData (br : BufReader) : Except Err (RecordData × BufReader) := do
  let (alg, br) ← readNameBR br
  let (hi, br) ← br.readU16BE
  let (lo, br) ← br.readU32BE
  let (fudge, br) ← br.readU16BE
  let (macLen, br) ← br.readU16BE
  let (mac, br) ← br.readBytes macLen
  let (oid, br) ← br.readU16BE
  let (ec, br) ← br.readU16BE
  let (otherLen, br) ← br.readU16BE
  let (other, br) ← br.readBytes otherLen
  .ok (.tsig alg (hi * 0x100000000 + lo) fudge mac oid ec other, br)

/-- The record-type code points that the source's `read(type, br)` switch
dispatches to parsers this embedding does not model (values modelled from the
spec §6 type enumeration / RFC registries; SINK=40 is dispatched to
UNKNOWNRecord by the source and therefore not listed). -/
def dispatchedTypes : List Nat :=
  [2, 3, 4, 6, 7, 8, 9, 10, 11, 12, 13, 14, 15, 16, 17, 18, 19, 20, 21, 22, 23, 24,
   25, 26, 27, 28, 29, 30, 31, 32, 33, 34, 35, 36, 37, 38, 39, 42, 43, 44, 45, 46,
   47, 48, 49, 50, 51, 52, 53, 55, 56, 57, 58, 59, 60, 61, 62, 99, 100, 101, 102,
   103, 104, 105, 106, 107, 108, 109, 249, 255, 256, 257, 258, 259, 32768, 32769]

/-- `read(type, br)` of wire.js (lines 6350-6618): reads the rdlength, builds
a sub-reader bounded at `offset + size`, dispatches on the type, and then
sets `br.offset = cbr.offset` (line 6615) -- the sub-reader's final position,
not the rdlength bound. -/
def readData (t : Nat) (br : BufReader) : Except Err (RecordData × BufReader) := do
  let (size, br) ← br.readU16BE
  let offset := br.offset
  let len := offset + size
  if ¬ len ≤ br.data.length then .error "assert: len <= data.length" else do
  let cbr : BufReader := ⟨br.data.take len, offset⟩
  let (rd, cbr) ←
    if t = types.A then readAData cbr
    else if t = types.CNAME then readCnameData cbr
    else if t = types.OPT then readOptData cbr
    else if t = types.TSIG then readTsigData cbr
    else if t ∈ dispatchedTypes then .error "record type not modelled"
    else readUnknownData cbr
  .ok (rd, { br with offset := cbr.offset })

/-- `Record`: the `(name, type, class, ttl, data)` envelope. -/
structure Rec where
  name : String
  rtype : Nat
  rclass : Nat
  ttl : Nat
  data : RecordData
  deriving Repr, DecidableEq

def Rec.isOPT (r : Rec) : Bool :=
  r.rtype = types.OPT

def Rec.isTSIG (r : Rec) : Bool :=
  r.rtype = types.TSIG && r.rclass = classes.ANY

/-- `this.data.typeCovered === 0` of `Record.isSIG0`: none of the modelled
data variants carries a `typeCovered` field, so the comparison of JS
`undefined` with 0 is false (SIG record data itself is not modelled; the
short-circuited `type === types.SIG` guard keeps this unreachable in the
decoder, whose SIG dispatch is unmodelled). -/
def RecordData.typeCoveredIsZero : RecordData → Bool :=
  fun _ => false

def Rec.isSIG0 (r : Rec) : Bool :=
  r.name = "." && r.rtype = types.SIG && r.rclass = classes.ANY && r.ttl = 0 &&
    r.data.typeCoveredIsZero

def Rec.getSize (r : Rec) : Except Err Nat := do
  let ns ← sizeName r.name none false
  let ds ← r.data.getSize
  .ok (ns + 10 + ds)

def Rec.write (r : Rec) (bw : Writer) : Except Err Writer :=
  match writeNameBW bw r.name none false with
  | .error e => .error e
  | .ok (bw, _) =>
  match bw.writeU16BE r.rtype with
  | .error e => .error e
  | .ok bw =>
  match bw.writeU16BE r.rclass with
  | .error e => .error e
  | .ok bw =>
  match bw.writeU32BE r.ttl with
  | .error e => .error e
  | .ok bw =>
  match r.data.getSize with
  | .error e => .error e
  | .ok sz =>
  match bw.writeU16BE sz with
  | .error e => .error e
  | .ok bw => r.data.write bw

def Rec.read (br : BufReader) : Except Err (Rec × BufReader) :=
  match readNameBR br with
  | .error e => .error e
  | .ok (name, br) =>
  match br.readU16BE with
  | .error e => .error e
  | .ok (t, br) =>
  match br.readU16BE with
  | .error e => .error e
  | .ok (c, br) =>
  match br.readU32BE with
  | .error e => .error e
  | .ok (ttl, br) =>
  match readData t br with
  | .error e => .error e
  | .ok (data, br) => .ok (⟨name, t, c, ttl, data⟩, br)

/-- `Question`. -/
structure Question where
  name : String
  qtype : Nat
  qclass : Nat
  deriving Repr, DecidableEq

def Question.getSize (q : Question) : Except Err Nat := do
  let s ← sizeName q.name none false
  .ok (s + 4)

def Question.write (q : Question) (bw : Writer) : Except Err Writer := do
  let (bw, _) ← writeNameBW bw q.name none false
  let bw ← bw.writeU16BE q.qtype
  bw.writeU16BE q.qclass

/-- `Question.read` including its early returns on exhaustion; the defaults
are those of `new Question()` (`fqdn('') = ''`, type ANY, class IN). -/
def Question.read (br : BufReader) : Except Err (Question × BufReader) := do
  let (name, br) ← readNameBR br
  if br.left = 0 then .ok (⟨name, types.ANY, classes.IN⟩, br) else do
  let (t, br) ← br.readU16BE
  if br.left = 0 then .ok (⟨name, t, classes.IN⟩, br) else do
  let (c, br) ← br.readU16BE
  .ok (⟨name, t, c⟩, br)

/-- `EDNS`. -/
structure Edns where
  enabled : Bool
  size : Nat
  code : Nat
  version : Nat
  flags : Nat
  options : List (Nat × List Nat)
  deriving Repr, DecidableEq

/-- `new EDNS()`. -/
def emptyEdns : Edns :=
  ⟨false, MAX_UDP_SIZE, 0, 0, 0, []⟩

/-- `EDNS.toRecord()` (wire.js lines 1424-1448). -/
def Edns.toRecord (e : Edns) : Rec :=
  { name := "."
    rtype := types.OPT
    rclass := e.size
    ttl := ((e.code &&& 0xff) <<< 24) ||| ((e.version &&& 0xff) <<< 16) ||| (e.flags &&& 0xffff)
    data := .opt e.options }

/-- `EDNS.setRecord(rr)` (wire.js lines 1450-1467); only called on records
with `isOPT()`, whose data is always the opt variant. -/
def Edns.setRecord (_e : Edns) (rr : Rec) : Edns :=
  { enabled := true
    size := rr.rclass
    code := (rr.ttl >>> 24) &&& 0xff
    version := (rr.ttl >>> 16) &&& 0xff
    flags := rr.ttl &&& 0xffff
    options := match rr.data with | .opt os => os | _ => [] }

/-- `Message`. -/
structure Msg where
  id : Nat
  flags : Nat
  opcode : Nat
  code : Nat
  question : List Question
  answer : List Rec
  authority : List Rec
  additional : List Rec
  edns : Edns
  tsig : Option Rec
  sig0 : Option Rec
  size : Nat
  trailing : List Nat
  deriving Repr, DecidableEq

/-- `Message.arcount` (wire.js lines 327-340). -/
def Msg.arcount (m : Msg) : Nat :=
  m.additional.length + (if m.edns.enabled then 1 else 0) +
    (if m.tsig.isSome then 1 else 0) + (if m.sig0.isSome then 1 else 0)

/-- `Message.bodyLength()`. -/
def Msg.bodyLength (m : Msg) : Nat :=
  m.answer.length + m.authority.length + m.arcount

end Bns

namespace Bns

/-- The question-size accumulation of `Message.getSizes`. -/
def qsSizes : List Question → Except Err Nat
  | [] => .ok 0
  | q :: rest =>
    match q.getSize with
    | .error e => .error e
    | .ok s =>
      match qsSizes rest with
      | .error e => .error e
      | .ok r => .ok (s + r)

/-- The record-fitting loops of `Message.getSizes` (one per section): returns
the accumulated size and item count, and whether the loop stopped because a
record would overflow `max`. -/
def fitLoop (udp : Bool) (max : Nat) : List Rec → Nat → Nat → Except Err (Nat × Nat × Bool)
  | [], size, items => .ok (size, items, false)
  | rr :: rest, size, items =>
    match rr.getSize with
    | .error e => .error e
    | .ok sz =>
      if udp ∧ max < size + sz then .ok (size, items, true)
      else fitLoop udp max rest (size + sz) (items + 1)

/-- The SIG(0) block of `Message.getSizes` (wire.js lines 545-552) and its
final return (lines 554-557). -/
def gsSig0 (m : Msg) (udp : Bool) (max osize oitems size items : Nat) :
    Except Err (Nat × Int) :=
  match m.sig0 with
  | some rr =>
    match rr.getSize with
    | .error e => .error e
    | .ok sz =>
      if udp ∧ max < size + sz then .ok (osize, (oitems : Int))
      else .ok (size + sz, if udp then ((items + 1 : Nat) : Int) else -1)
  | none => .ok (size, if udp then (items : Int) else -1)

/-- The TSIG block of `Message.getSizes` (wire.js lines 536-543). -/
def gsTsig (m : Msg) (udp : Bool) (max osize oitems size items : Nat) :
    Except Err (Nat × Int) :=
  match m.tsig with
  | some rr =>
    match rr.getSize with
    | .error e => .error e
    | .ok sz =>
      if udp ∧ max < size + sz then .ok (osize, (oitems : Int))
      else gsSig0 m udp max osize oitems (size + sz) (items + 1)
  | none => gsSig0 m udp max osize oitems size items

/-- `Message.getSizes(udp, map)` (wire.js lines 484-558) at the `encode()`
call's null map.  Returns `[size, items]`; `items = -1` for the non-UDP
path. -/
def Msg.getSizes (m : Msg) (udp : Bool) : Except Err (Nat × Int) :=
  let max := if udp ∧ m.edns.enabled = true ∧ MAX_UDP_SIZE ≤ m.edns.size
             then m.edns.size else MAX_UDP_SIZE
  match qsSizes m.question with
  | .error e => .error e
  | .ok qs =>
    if ¬ 12 + qs ≤ max then .error "assert: size <= max" else
    match fitLoop udp max m.answer (12 + qs) 0 with
    | .error e => .error e
    | .ok (size, items, stop) =>
      if stop then .ok (size, (items : Int)) else
      match fitLoop udp max m.authority size items with
      | .error e => .error e
      | .ok (size, items, stop) =>
        if stop then .ok (size, (items : Int)) else
        let osize := size
        let oitems := items
        match fitLoop udp max m.additional size items with
        | .error e => .error e
        | .ok (size, items, stop) =>
          if stop then .ok (osize, (oitems : Int)) else
          match (if m.edns.enabled then some m.edns.toRecord else none) with
          | some rr =>
            match rr.getSize with
            | .error e => .error e
            | .ok sz =>
              if udp ∧ max < size + sz then .ok (osize, (oitems : Int))
              else gsTsig m udp max osize oitems (size + sz) (items + 1)
          | none => gsTsig m udp max osize oitems size items

/-- `Message.getSize()`. -/
def Msg.getSize (m : Msg) : Except Err Nat := do
  let (size, _) ← m.getSizes false
  .ok size

/-- The flags-word computation of `Message.write` (wire.js lines 576-586),
including the truncation bit (`if (items < body) bits |= flags.TC`).  The
bitwise complements are the 32-bit values used by JS. -/
def headerBits (flags opcode code : Nat) (items body : Int) : Nat :=
  let bits := flags &&& 0xffff87ff
  let bits := bits ||| ((opcode &&& 0x0f) <<< 11)
  let bits := bits &&& 0xfffffff0
  let bits := bits ||| (code &&& 0x0f)
  if items < body then bits ||| flagsTC else bits

/-- The record loops of `Message.write`: write each record, decrement the item
budget, return early when it hits zero (`if (--items === 0) return this`).
The accumulator is ghost instrumentation recording the records written. -/
def writeRecs : List Rec → Writer → Int → List Rec →
    Except Err (Writer × Int × List Rec × Bool)
  | [], bw, items, acc => .ok (bw, items, acc, false)
  | rr :: rest, bw, items, acc =>
    match rr.write bw with
    | .error e => .error e
    | .ok bw =>
      let items1 := items - 1
      if items1 = 0 then .ok (bw, items1, acc ++ [rr], true)
      else writeRecs rest bw items1 (acc ++ [rr])

def writeQs : List Question → Writer → Except Err Writer
  | [], bw => .ok bw
  | q :: rest, bw => do
    let bw ← q.write bw
    writeQs rest bw

/-- The SIG(0) tail of `Message.write` (lines 632-638). -/
def writeSig0 (m1 : Msg) (bw : Writer) (_items : Int) (acc : List Rec) :
    Except Err (Writer × Msg × List Rec) :=
  match m1.sig0 with
  | some rr =>
    match rr.write bw with
    | .error e => .error e
    | .ok bw => .ok (bw, m1, acc ++ [rr])
  | none => .ok (bw, m1, acc)

/-- The TSIG tail of `Message.write` (lines 626-630). -/
def writeTsig (m1 : Msg) (bw : Writer) (items : Int) (acc : List Rec) :
    Except Err (Writer × Msg × List Rec) :=
  match m1.tsig with
  | some rr =>
    match rr.write bw with
    | .error e => .error e
    | .ok bw =>
      let items1 := items - 1
      if items1 = 0 then .ok (bw, m1, acc ++ [rr])
      else writeSig0 m1 bw items1 (acc ++ [rr])
  | none => writeSig0 m1 bw items acc

/-- The receiver mutation of `Message.write` lines 614-617: for an extended
response code, enable EDNS and store the high bits in `edns.code`. -/
def spliceEdns (m : Msg) : Msg :=
  { m with edns := { m.edns with enabled := true, code := m.code >>> 4 } }

/-- The EDNS/OPT tail of `Message.write` (lines 614-624), beginning with the
receiver mutation for extended response codes. -/
def writeEdnsTail (m : Msg) (bw : Writer) (items : Int) (acc : List Rec) :
    Except Err (Writer × Msg × List Rec) :=
  let m1 := if 0x0f < m.code then spliceEdns m else m
  if m1.edns.enabled then
    let rr := m1.edns.toRecord
    match rr.write bw with
    | .error e => .error e
    | .ok bw =>
      let items1 := items - 1
      if items1 = 0 then .ok (bw, m1, acc ++ [rr])
      else writeTsig m1 bw items1 (acc ++ [rr])
  else writeTsig m1 bw items acc

/-- The header phase of `Message.write` (lines 574-594): id, flags word,
section counts, then the question section. -/
def writeHeader (m : Msg) (bw : Writer) (items body : Int) : Except Err Writer :=
  match bw.writeU16BE m.id with
  | .error e => .error e
  | .ok bw =>
  match bw.writeU16BE (headerBits m.flags m.opcode m.code items body) with
  | .error e => .error e
  | .ok bw =>
  match bw.writeU16BE m.question.length with
  | .error e => .error e
  | .ok bw =>
  match bw.writeU16BE m.answer.length with
  | .error e => .error e
  | .ok bw =>
  match bw.writeU16BE m.authority.length with
  | .error e => .error e
  | .ok bw =>
  match bw.writeU16BE m.arcount with
  | .error e => .error e
  | .ok bw => writeQs m.question bw

/-- `Message.write(bw, items, map)` (wire.js lines 565-639) at the `encode()`
call's null map.  Returns the writer, the (possibly mutated) receiver, and
the ghost list of records written. -/
def Msg.write (m : Msg) (bw : Writer) (items0 : Int) :
    Except Err (Writer × Msg × List Rec) :=
  let body : Int := (m.bodyLength : Int)
  let items := if items0 = -1 then body else items0
  match writeHeader m bw items body with
  | .error e => .error e
  | .ok bw =>
    match writeRecs m.answer bw items [] with
    | .error e => .error e
    | .ok (bw, items, acc, early) =>
      if early then .ok (bw, m, acc) else
      match writeRecs m.authority bw items acc with
      | .error e => .error e
      | .ok (bw, items, acc, early) =>
        if early then .ok (bw, m, acc) else
        match writeRecs m.additional bw items acc with
        | .error e => .error e
        | .ok (bw, items, acc, early) =>
          if early then .ok (bw, m, acc) else
          writeEdnsTail m bw items acc

/-- `Message.encode(udp)` together with the final state of the receiver. -/
def Msg.encodeFull (m : Msg) (udp : Bool) : Except Err (List Nat × Msg) :=
  match m.getSizes udp with
  | .error e => .error e
  | .ok (size, items) =>
    let bw : Writer := ⟨List.replicate size 0, 0⟩
    match m.write bw items with
    | .error e => .error e
    | .ok (bw, m1, _) =>
      match bw.render with
      | .error e => .error e
      | .ok out => .ok (out, m1)

/-- `Message.encode(udp)`. -/
def Msg.encode (m : Msg) (udp : Bool) : Except Err (List Nat) :=
  (m.encodeFull udp).map Prod.fst

/-- The question loop of `Message.read` with its `br.left() === 0` early
return. -/
def readQsLoop : Nat → BufReader → List Question →
    Except Err (List Question × BufReader × Bool)
  | 0, br, acc => .ok (acc, br, false)
  | cnt + 1, br, acc =>
    if br.left = 0 then .ok (acc, br, true)
    else do
      let (q, br) ← Question.read br
      readQsLoop cnt br (acc ++ [q])

/-- The answer/authority loops of `Message.read`: the exhaustion early return
applies only when the TC flag is set. -/
def readRecsLoop (tc : Bool) : Nat → BufReader → List Rec →
    Except Err (List Rec × BufReader × Bool)
  | 0, br, acc => .ok (acc, br, false)
  | cnt + 1, br, acc =>
    if tc ∧ br.left = 0 then .ok (acc, br, true)
    else do
      let (rr, br) ← Rec.read br
      readRecsLoop tc cnt br (acc ++ [rr])

/-- The additional loop of `Message.read` (wire.js lines 710-734): OPT records
promote to the EDNS slot and splice the extended response code, a TSIG moves
to the tsig slot, a SIG(0) to the sig0 slot, everything else stays in
additional. -/
def readAddLoop : Nat → BufReader → Msg → Except Err (Msg × BufReader × Bool)
  | 0, br, m => .ok (m, br, false)
  | cnt + 1, br, m =>
    if br.left = 0 then .ok (m, br, true)
    else
      match Rec.read br with
      | .error e => .error e
      | .ok (rr, br) =>
        if rr.isOPT then
          let e := m.edns.setRecord rr
          readAddLoop cnt br { m with edns := e, code := (m.code &&& 0x0f) ||| (e.code <<< 4) }
        else if rr.isTSIG then
          readAddLoop cnt br { m with tsig := some rr }
        else if rr.isSIG0 then
          readAddLoop cnt br { m with sig0 := some rr }
        else
          readAddLoop cnt br { m with additional := m.additional ++ [rr] }

/-- `Message.read(br)` (wire.js lines 668-742). -/
def Msg.read (br : BufReader) : Except Err Msg :=
  let size := br.data.length
  match br.readU16BE with
  | .error e => .error e
  | .ok (id, br) =>
  match br.readU16BE with
  | .error e => .error e
  | .ok (bits, br) =>
  match br.readU16BE with
  | .error e => .error e
  | .ok (qdcount, br) =>
  match br.readU16BE with
  | .error e => .error e
  | .ok (ancount, br) =>
  match br.readU16BE with
  | .error e => .error e
  | .ok (nscount, br) =>
  match br.readU16BE with
  | .error e => .error e
  | .ok (arcount, br) =>
  let m : Msg :=
    { id := id
      flags := (bits &&& 0xffff87ff) &&& 0xfffffff0
      opcode := (bits >>> 11) &&& 0x0f
      code := bits &&& 0x0f
      question := [], answer := [], authority := [], additional := []
      edns := emptyEdns, tsig := none, sig0 := none, size := 0, trailing := [] }
  match readQsLoop qdcount br [] with
  | .error e => .error e
  | .ok (qs, br, early) =>
  let m := { m with question := qs }
  if early then .ok m else
  let tc := decide (m.flags &&& flagsTC ≠ 0)
  match readRecsLoop tc ancount br [] with
  | .error e => .error e
  | .ok (ans, br, early) =>
  let m := { m with answer := ans }
  if early then .ok m else
  match readRecsLoop tc nscount br [] with
  | .error e => .error e
  | .ok (aut, br, early) =>
  let m := { m with authority := aut }
  if early then .ok m else
  match readAddLoop arcount br m with
  | .error e => .error e
  | .ok (m, br, early) =>
  if early then .ok m else
  let m := { m with size := size }
  let m := if 0 < br.left then { m with trailing := br.data.drop br.offset } else m
  .ok m

/-- `Message.decode(data)`. -/
def Msg.decode (data : List Nat) : Except Err Msg :=
  Msg.read ⟨data, 0⟩

/-- `rr.data.target` as used by `Message.collect`: every CNAME-typed record
handled there carries cname data. -/
def RecordData.target : RecordData → String
  | .cname t => t
  | _ => ""

/-- The answer loop of `Message.collect` (wire.js lines 450-471); `target` is
the loop-carried name being chased. -/
def collectLoop (qtype : Nat) : List Rec → String → List Rec → List Rec
  | [], _, acc => acc
  | rr :: rest, target, acc =>
    if !equal rr.name target then collectLoop qtype rest target acc
    else if rr.rtype = types.CNAME then
      let acc1 := if qtype = types.ANY ∨ qtype = types.CNAME then acc ++ [rr] else acc
      collectLoop qtype rest rr.data.target acc1
    else if qtype ≠ types.ANY ∧ rr.rtype ≠ qtype then
      collectLoop qtype rest target acc
    else
      collectLoop qtype rest target (acc ++ [rr])

/-- `Message.collect(name, type)` (wire.js lines 442-474). -/
def Msg.collect (m : Msg) (name : String) (qtype : Nat) : List Rec :=
  collectLoop qtype m.answer (fqdn name) []

/-- An all-default message (`new Message()`). -/
def emptyMsg : Msg :=
  { id := 0, flags := 0, opcode := 0, code := 0
    question := [], answer := [], authority := [], additional := []
    edns := emptyEdns, tsig := none, sig0 := none, size := 0, trailing := [] }

end Bns

namespace Bns

/-- The full emission order of `Message.write` when nothing is truncated:
answer, authority, additional, then the OPT/TSIG/SIG(0) pseudo-records. -/
def recSeq (m : Msg) : List Rec :=
  m.answer ++ (m.authority ++ (m.additional ++
    ((if m.edns.enabled then [m.edns.toRecord] else []) ++
      (m.tsig.toList ++ m.sig0.toList))))

/-!  Concrete inputs used to settle the claims. -/

/-- A message with the extended code BADVERS (16), EDNS disabled, and one
answer record; its names are fully qualified and it has no trailing bytes. -/
def msgC1 : Msg := { emptyMsg with
  id := 0x1234
  code := 16
  answer := [⟨".", 999, 1, 0, .unknown []⟩] }

/-- A message whose TC flag is already set and which truncation never
touches. -/
def msgC2tc : Msg := { emptyMsg with flags := flagsTC }

/-- A UDP-bound message whose single answer record fills the 512-octet budget
exactly and whose additional section therefore overflows it. -/
def msgC2udp : Msg := { emptyMsg with
  answer := [⟨".", 999, 1, 0, .unknown (List.replicate 489 7)⟩]
  additional := [⟨".", 999, 1, 0, .unknown []⟩] }

/-- A message with code 16, EDNS disabled and one answer record (for the
extended-RCODE claim). -/
def msgC3 : Msg := { emptyMsg with
  code := 16
  answer := [⟨".", 999, 1, 0, .unknown [7]⟩] }

/-- The BADVERS-style family: code `c`, EDNS enabled, nothing else. -/
def badversMsg (c : Nat) : Msg := { emptyMsg with
  code := c
  edns := { emptyEdns with enabled := true } }

/-- The wire image of the minimal EDNS-enabled message with an extended code:
a 12-byte header with `lo` in the low byte of the flags word and arcount 1,
followed by a root-name OPT record of class 512 whose TTL top byte is `h`. -/
def bufBadvers (lo h : Nat) : List Nat :=
  [0, 0, 0, lo, 0, 0, 0, 0, 0, 0, 0, 1, 0, 0, 41, 2, 0, h, 0, 0, 0, 0, 0]

/-- The OPT record carried by `bufBadvers`, with its fields as the reader
assembles them. -/
def recBadvers (h : Nat) : Rec :=
  ⟨".", 0 * 0x100 + 41, 2 * 0x100 + 0, h * 0x1000000 + 0 * 0x10000 + 0 * 0x100 + 0, .opt []⟩

/-- A wire record `. 0 IN CNAME .` framed with rdlength 3 although its rdata
holds only the 1-octet root name (two trailing garbage octets). -/
def bufC4 : List Nat :=
  [0, 0, 5, 0, 1, 0, 0, 0, 0, 0, 3, 0, 0xAA, 0xBB]

/-- A message with arcount 3 whose additional section holds a regular record,
an OPT record (class 4096) and a TSIG record (class ANY), in that order. -/
def bufC9 : List Nat :=
  [0, 7, 0, 0, 0, 0, 0, 0, 0, 0, 0, 3] ++
  [0, 0x03, 0xE7, 0, 1, 0, 0, 0, 0, 0, 0] ++
  [0, 0, 41, 0x10, 0, 0, 0, 0, 0, 0, 0] ++
  [0, 0, 250, 0, 255, 0, 0, 0, 0, 0, 17,
   0, 0, 0, 0, 0, 0, 0, 0, 0, 0, 0, 0, 0, 0, 0, 0, 0]

/-- The answer section of the CNAME-chasing scenario:
`example.com. CNAME www.example.com.` then `www.example.com. A 93.184.216.34`. -/
def msgC8 : Msg := { emptyMsg with
  answer :=
    [⟨"example.com.", types.CNAME, classes.IN, 3600, .cname "www.example.com."⟩,
     ⟨"www.example.com.", types.A, classes.IN, 3600, .a [93, 184, 216, 34]⟩] }

/-- A message with code 17 (> 15), EDNS disabled, and one answer record. -/
def msgC10 : Msg := { emptyMsg with
  code := 17
  answer := [⟨".", 999, 1, 0, .unknown [1, 2]⟩] }

/-- A message with code 16 and EDNS already enabled, plus one answer record. -/
def msgC10w : Msg := { emptyMsg with
  code := 16
  edns := { emptyEdns with enabled := true }
  answer := [⟨".", 999, 1, 0, .unknown []⟩] }

/-- The message `bufC9` decodes to. -/
def msgC9dec : Msg :=
  { id := 7, flags := 0, opcode := 0, code := 0
    question := [], answer := [], authority := []
    additional := [⟨".", 999, 1, 0, .unknown []⟩]
    edns := ⟨true, 4096, 0, 0, 0, []⟩
    tsig := some ⟨".", 250, 255, 0, .tsig "." 0 0 [] 0 0 []⟩
    sig0 := none, size := 62, trailing := [] }

end Bns

namespace Bns

/-- C1.  The claimed round trip fails on the code: `msgC1` is well formed (its
names are fully qualified, it has no trailing bytes, its 12-bit code is
BADVERS = 16), yet `decode(encode(msgC1))` differs from `msgC1` in the `code`
field, which comes back as 0.  `Message.write` only performs the extended-code
EDNS splice after the section loops, whose item budget (`bodyLength`, computed
while EDNS is still disabled) expires on the last answer record, so no OPT
record is ever emitted and the high bits of the code are lost. -/
theorem claimC1_eval :
    msgC1.code = 16 ∧
    (do let b ← msgC1.encode false; Msg.decode b : Except Err Msg) =
      .ok { msgC1 with code := 0, size := 23 } := by decide

/-- C4.  After `Record.read` on a record framed with rdlength 3 whose CNAME
rdata occupies a single octet, the parent reader's offset is 12 — the
sub-reader's final position (start_of_rdata + 1) — not start_of_rdata +
rdlength = 14 as the claim states: wire.js line 6615 assigns
`br.offset = cbr.offset` instead of the rdlength bound, so under-consuming
rdata desynchronizes the records that follow. -/
theorem claimC4_eval :
    Rec.read ⟨bufC4, 0⟩ = .ok (⟨".", 5, 1, 0, .cname "."⟩, ⟨bufC4, 12⟩) ∧
    12 ≠ 11 + 3 := by decide

/-- C6.  With compression enabled, writing `a.example.com.` and then
`b.example.com.` with a shared map must emit, at the current output position,
a pointer `0xc000 | 2` to the first occurrence of the suffix
`example.com.`.  Instead the source's swapped `writeUInt16BE(pos, ptr ^
0xc000)` call (encoding.js line 177) tries to write the value 17 (the current
position) at offset 0xc002, far outside the 32-octet buffer, and writeName
throws a RangeError. -/
theorem claimC6_eval :
    (do
      let o1 ← writeName (some (List.replicate 32 0)) "a.example.com." 0 (some []) true
      writeName o1.dat "b.example.com." o1.off o1.map true : Except Err WNOut) =
      .error "RangeError: writeUInt16BE out of range" := by decide

/-- C7.  `util.equal` returns `true` on `"ab"` and `"cd"`, although the two
strings differ under ASCII case folding: line 185 of util.js reads both fold
operands from `a`, so any two strings of equal length compare equal.  The
claim (and spec §9) require the correct two-argument fold, which returns
`false` here. -/
theorem claimC7_eval : equal "ab" "cd" = true := by decide

/-- C8.  On the message whose answer is exactly
`example.com. CNAME www.example.com.` and `www.example.com. A 93.184.216.34`,
`Message.collect('example.com.', A)` returns the empty list instead of the A
record: `util.fqdn` as written strips the trailing dot from an already
fully-qualified name, so the chased target `example.com` never compares equal
to the dotted owner names. -/
theorem claimC8_eval :
    msgC8.collect "example.com." types.A = [] ∧
    fqdn "example.com." = "example.com" := by decide

/-- C9.  Decoding a message with arcount 3 whose additional section holds a
regular record, an OPT record and a TSIG record (class ANY), in that order,
yields `additional` holding exactly the regular record, the EDNS slot
populated from the OPT record (enabled, size 4096), the TSIG slot holding the
TSIG record, and an `arcount` getter value of 3. -/
theorem claimC9_decode :
    Msg.decode bufC9 = .ok msgC9dec ∧ msgC9dec.arcount = 3 := by decide

/-- C5 counterexample.  A name starting with a pointer whose 14-bit target (3)
is beyond the current offset decodes without any error — the source has no
pointer-direction check — refuting the claim that such pointers raise an
encoding error. -/
theorem claimC5_counterexample :
    readName [0xc0, 0x03, 0xff, 0x01, 0x61, 0x00] 0 = .ok (2, "a.") := by decide

/-- C2 counterexample.  A message whose TC flag is already set serializes for
UDP with the TC bit set in the emitted flags word although not a single
record was dropped (its body is empty), refuting the claimed "if and only
if". -/
theorem claimC2_counterexample :
    Msg.encode msgC2tc true = .ok [0, 0, 2, 0, 0, 0, 0, 0, 0, 0, 0, 0] ∧
    msgC2tc.bodyLength = 0 := by decide

/-- C3 counterexample.  For `msgC3` (code 16 > 15, EDNS disabled, one answer
record) encoding does not store the high bits of the code in any OPT record —
none is emitted, because the item budget expires before the EDNS phase of
`Message.write` — and decoding the buffer yields code 0, not 16. -/
theorem claimC3_counterexample :
    msgC3.code = 16 ∧
    ((do let b ← msgC3.encode false; Msg.decode b : Except Err Msg)).map Msg.code =
      .ok 0 := by decide

/-- C10 counterexample.  `msgC10` has code 17 > 15, yet encoding it returns
the receiver completely unchanged (in particular `edns.enabled` stays false):
the mutation at wire.js lines 614-617 is skipped because the item budget
expires on the last answer record, refuting "mutates its receiver whenever
the message's code field exceeds 15". -/
theorem claimC10_counterexample :
    0x0f < msgC10.code ∧ (msgC10.encodeFull false).map Prod.snd = .ok msgC10 := by decide

end Bns

namespace Bns

theorem charStep_inv (b : Nat) (name : List Char) (max : Nat) :
    (charStep b name max).1.length + max = name.length + 1 + (charStep b name max).2 ∧
      max ≤ (charStep b name max).2 := by
  unfold charStep
  split
  · simp
    omega
  · split
    · simp [toDDD]
      omega
    · simp

theorem readLabel_ok_inv (data : List Nat) :
    ∀ (c j : Nat) (name nm : List Char) (max mx : Nat),
      readLabel data j name max c = .ok (nm, mx) →
      nm.length + max = name.length + c + mx ∧ max ≤ mx := by
  intro c
  induction c with
  | zero =>
    intro j name nm max mx h
    simp [readLabel] at h
    obtain ⟨h1, h2⟩ := h
    subst h1 h2
    omega
  | succ k ih =>
    intro j name nm max mx h
    rw [readLabel] at h
    split at h
    rename_i pr name1 max1 heq
    split at h
    · simp at h
    · have h2 := ih (j + 1) _ nm _ mx h
      have h1 := charStep_inv (data.getD j 0) name max
      rw [heq] at h1
      simp only [Prod.fst, Prod.snd] at h1
      omega

/-- Success of the `readName` loop keeps the pointer budget at 10 and
maintains `name.length + 255 = wlen + max` (each presentation character
beyond the wire octets it denotes is matched by a `max` increment), with
`max` monotone. -/
theorem rnLoop_ok_inv (data : List Nat) :
    ∀ (fuel : Nat) (st st' : RNSt), rnLoop data fuel st = .ok st' →
      (st.ptrs ≤ 10 → st'.ptrs ≤ 10) ∧
      st'.name.length + st.wlen + st.max = st.name.length + st'.wlen + st'.max ∧
      st.max ≤ st'.max := by
  intro fuel
  induction fuel with
  | zero =>
    intro st st' h
    simp [rnLoop] at h
  | succ n ih =>
    intro st st' h
    rw [rnLoop] at h
    by_cases h1 : data.length ≤ st.off
    · rw [if_pos h1] at h
      simp at h
    · rw [if_neg h1] at h
      by_cases h2 : data.getD st.off 0 = 0
      · rw [if_pos h2] at h
        injection h with h
        subst h
        simp
      · rw [if_neg h2] at h
        by_cases h3 : data.getD st.off 0 &&& 0xc0 = 0
        · rw [if_pos h3] at h
          by_cases h4 : data.length < st.off + 1 + data.getD st.off 0
          · rw [if_pos h4] at h
            simp at h
          · rw [if_neg h4] at h
            cases hL : readLabel data (st.off + 1) st.name st.max (data.getD st.off 0) with
            | error e => rw [hL] at h; simp at h
            | ok pr =>
              obtain ⟨nm, mx⟩ := pr
              rw [hL] at h
              have hrl := readLabel_ok_inv data _ _ _ nm _ mx hL
              have h5 := ih _ st' h
              simp only [List.length_append, List.length_cons, List.length_nil] at h5 ⊢
              omega
        · rw [if_neg h3] at h
          by_cases h5 : data.getD st.off 0 &&& 0xc0 = 0xc0
          · rw [if_pos h5] at h
            by_cases h6 : data.length ≤ st.off + 1
            · rw [if_pos h6] at h
              simp at h
            · rw [if_neg h6] at h
              by_cases h7 : 10 < st.ptrs + 1
              · rw [if_pos h7] at h
                simp at h
              · rw [if_neg h7] at h
                have h8 := ih _ st' h
                simp only at h8 ⊢
                constructor
                · intro _
                  exact h8.1 (by omega)
                · omega
          · rw [if_neg h5] at h
            simp at h

/-- A length byte whose top two bits are `01` or `10` stops the `readName`
loop with the source's `Bad character` error. -/
theorem rnLoop_badbits (data : List Nat) (fuel : Nat) (st : RNSt)
    (hoff : st.off < data.length)
    (hb : data.getD st.off 0 &&& 0xc0 = 0x40 ∨ data.getD st.off 0 &&& 0xc0 = 0x80) :
    rnLoop data (fuel + 1) st = .error "Bad character" := by
  have h2 : ¬ data.getD st.off 0 = 0 := by
    intro h0
    rcases hb with hb | hb <;> rw [h0] at hb <;> simp at hb
  have h3 : ¬ data.getD st.off 0 &&& 0xc0 = 0 := by
    intro h0
    rcases hb with hb | hb <;> rw [h0] at hb <;> simp at hb
  have h5 : ¬ data.getD st.off 0 &&& 0xc0 = 0xc0 := by
    intro h0
    rcases hb with hb | hb <;> rw [h0] at hb <;> simp at hb
  rw [rnLoop, if_neg (by omega), if_neg h2, if_neg h3, if_neg h5]

/-- C5 amended: `readName` raises an encoding error whenever decoding follows
more than 10 pointers, or reconstructs a name longer than 255 wire octets
(`wlen` counts the label length and content octets, so `wlen + 1` is the wire
length including the terminal zero octet), or meets a length byte whose top
two bits are `10` or `01`.  The claim's remaining condition — rejecting any
pointer whose target is at or beyond the current offset — is dropped: the
source has no such check (see the counterexample), its only loop protection
being the pointer budget.  Stated contrapositively for the first two
conditions: a successful decode followed at most 10 pointers and stayed
within 255 octets. -/
theorem claimC5_amended :
    (∀ (data : List Nat) (off res : Nat) (name : String),
      readName data off = .ok (res, name) →
      ∃ st, readNameStats data off = .ok st ∧ st.ptrs ≤ 10 ∧ st.wlen + 1 ≤ 255) ∧
    (∀ (data : List Nat) (off : Nat), off < data.length →
      data.getD off 0 &&& 0xc0 = 0x40 ∨ data.getD off 0 &&& 0xc0 = 0x80 →
      ∃ e, readName data off = .error e) := by
  constructor
  · intro data off res name h
    unfold readName at h
    cases hs : readNameStats data off with
    | error e => rw [hs] at h; simp at h
    | ok st =>
      rw [hs] at h
      dsimp only at h
      refine ⟨st, rfl, ?_, ?_⟩
      · have hs2 := hs
        unfold readNameStats at hs2
        have hinv := rnLoop_ok_inv data _ _ _ hs2
        simp at hinv
        exact hinv.1
      · have hs2 := hs
        unfold readNameStats at hs2
        have hinv := rnLoop_ok_inv data _ _ _ hs2
        simp at hinv
        by_cases hn : st.name = []
        · rw [hn] at hinv
          simp at hinv
          omega
        · rw [if_neg hn] at h
          split at h
          · simp at h
          · rename_i hc
            omega
  · intro data off hoff hb
    refine ⟨"Bad character", ?_⟩
    unfold readName readNameStats
    have hf : 12 * (data.length + 2) + 2 = 12 * (data.length + 2) + 1 + 1 := by omega
    rw [hf, rnLoop_badbits data _ _ hoff hb]

/-- C5 witness: both halves of the amended statement applied at concrete
buffers — the successful decode of the name `a.` and the rejection of a
length byte with top bits `01`. -/
theorem claimC5_witness :
    (∃ st, readNameStats [1, 97, 0] 0 = .ok st ∧ st.ptrs ≤ 10 ∧ st.wlen + 1 ≤ 255) ∧
    (∃ e, readName [0x41, 0] 0 = .error e) :=
  ⟨claimC5_amended.1 [1, 97, 0] 0 3 "a." (by decide),
   claimC5_amended.2 [0x41, 0] 0 (by decide) (Or.inl (by decide))⟩

end Bns

namespace Bns

theorem fitLoop_bounds (udp : Bool) (max : Nat) :
    ∀ (rrs : List Rec) (size items : Nat) (r : Nat × Nat × Bool),
      fitLoop udp max rrs size items = .ok r →
      items ≤ r.2.1 ∧ r.2.1 ≤ items + rrs.length ∧
      (r.2.2 = false → r.2.1 = items + rrs.length) ∧
      (udp = false → r.2.2 = false) := by
  intro rrs
  induction rrs with
  | nil =>
    intro size items r h
    simp [fitLoop] at h
    subst h
    simp
  | cons rr rest ih =>
    intro size items r h
    rw [fitLoop] at h
    cases hsz : rr.getSize with
    | error e => rw [hsz] at h; dsimp only at h; exact Except.noConfusion h
    | ok sz =>
      rw [hsz] at h
      dsimp only at h
      split at h
      · rename_i hover
        injection h with h
        subst h
        simp
        exact hover.1
      · have h2 := ih (size + sz) (items + 1) r h
        obtain ⟨a1, a2, a3, a4⟩ := h2
        simp only [List.length_cons]
        refine ⟨by omega, by omega, fun hf => ?_, a4⟩
        have := a3 hf
        omega

theorem gsSig0_spec (m : Msg) (udp : Bool) (max osize oitems size items : Nat)
    (p : Nat × Int) (h : gsSig0 m udp max osize oitems size items = .ok p) :
    (udp = false → p.2 = -1) ∧
    (udp = true →
      p.2 = (oitems : Int) ∨
      p.2 = ((items + (if m.sig0.isSome then 1 else 0) : Nat) : Int)) := by
  unfold gsSig0 at h
  cases hs : m.sig0 with
  | none =>
    rw [hs] at h
    dsimp only at h
    injection h with h
    subst h
    constructor
    · intro hu; simp [hu]
    · intro hu; simp [hu, hs]
  | some rr =>
    rw [hs] at h
    dsimp only at h
    cases hsz : rr.getSize with
    | error e => rw [hsz] at h; dsimp only at h; exact Except.noConfusion h
    | ok sz =>
      rw [hsz] at h
      dsimp only at h
      split at h
      · rename_i hover
        injection h with h
        subst h
        constructor
        · intro hu; rw [hu] at hover; simp at hover
        · intro _; left; rfl
      · injection h with h
        subst h
        constructor
        · intro hu; simp [hu]
        · intro hu; right; simp [hu, hs]

theorem gsTsig_spec (m : Msg) (udp : Bool) (max osize oitems size items : Nat)
    (p : Nat × Int) (h : gsTsig m udp max osize oitems size items = .ok p) :
    (udp = false → p.2 = -1) ∧
    (udp = true →
      p.2 = (oitems : Int) ∨
      p.2 = ((items + (if m.tsig.isSome then 1 else 0) +
              (if m.sig0.isSome then 1 else 0) : Nat) : Int)) := by
  unfold gsTsig at h
  cases hs : m.tsig with
  | none =>
    rw [hs] at h
    dsimp only at h
    have := gsSig0_spec m udp max osize oitems size items p h
    refine ⟨this.1, fun hu => ?_⟩
    rcases this.2 hu with h1 | h1
    · left; exact h1
    · right; rw [h1]; simp [hs]
  | some rr =>
    rw [hs] at h
    dsimp only at h
    cases hsz : rr.getSize with
    | error e => rw [hsz] at h; dsimp only at h; exact Except.noConfusion h
    | ok sz =>
      rw [hsz] at h
      dsimp only at h
      split at h
      · rename_i hover
        injection h with h
        subst h
        constructor
        · intro hu; rw [hu] at hover; simp at hover
        · intro _; left; rfl
      · have := gsSig0_spec m udp max osize oitems (size + sz) (items + 1) p h
        refine ⟨this.1, fun hu => ?_⟩
        rcases this.2 hu with h1 | h1
        · left; exact h1
        · right; rw [h1]; simp [hs]

theorem getSizes_spec (m : Msg) (udp : Bool) (p : Nat × Int)
    (h : m.getSizes udp = .ok p) :
    (udp = false → p.2 = -1) ∧
    (udp = true →
      0 ≤ p.2 ∧ p.2 ≤ (m.bodyLength : Int) ∧
      (p.2 ≤ ((m.answer.length + m.authority.length : Nat) : Int) ∨
       p.2 = (m.bodyLength : Int))) := by
  unfold Msg.getSizes at h
  dsimp only at h
  generalize hmx : (if udp ∧ m.edns.enabled = true ∧ MAX_UDP_SIZE ≤ m.edns.size
      then m.edns.size else MAX_UDP_SIZE) = mx at h
  cases hq : qsSizes m.question with
  | error e => rw [hq] at h; dsimp only at h; exact Except.noConfusion h
  | ok qs =>
    rw [hq] at h
    dsimp only at h
    split at h
    · exact Except.noConfusion h
    · cases h1 : fitLoop udp mx m.answer (12 + qs) 0 with
      | error e => rw [h1] at h; dsimp only at h; exact Except.noConfusion h
      | ok t1 =>
        obtain ⟨s1, i1, st1⟩ := t1
        have b1 := fitLoop_bounds udp mx m.answer (12 + qs) 0 _ h1
        simp only at b1
        rw [h1] at h
        dsimp only at h
        split at h
        · rename_i hst1
          injection h with h
          subst h
          have hbody : m.answer.length + m.authority.length ≤ m.bodyLength := by
            unfold Msg.bodyLength
            omega
          refine ⟨fun hu => absurd (b1.2.2.2 hu) (by simp [hst1]), fun _ => ?_⟩
          refine ⟨by simp, by simp only; omega, Or.inl (by simp only; omega)⟩
        · rename_i hst1
          replace hst1 : st1 = false := by revert hst1; cases st1 <;> simp
          cases h2 : fitLoop udp mx m.authority s1 i1 with
          | error e => rw [h2] at h; dsimp only at h; exact Except.noConfusion h
          | ok t2 =>
            obtain ⟨s2, i2, st2⟩ := t2
            have b2 := fitLoop_bounds udp mx m.authority s1 i1 _ h2
            simp only at b2
            rw [h2] at h
            dsimp only at h
            split at h
            · rename_i hst2
              injection h with h
              subst h
              have e1 := b1.2.2.1 hst1
              have hbody : m.answer.length + m.authority.length ≤ m.bodyLength := by
                unfold Msg.bodyLength
                omega
              refine ⟨fun hu => absurd (b2.2.2.2 hu) (by simp [hst2]), fun _ => ?_⟩
              refine ⟨by simp, by simp only; omega, Or.inl (by simp only; omega)⟩
            · rename_i hst2
              replace hst2 : st2 = false := by revert hst2; cases st2 <;> simp
              have e1 := b1.2.2.1 hst1
              have e2 := b2.2.2.1 hst2
              cases h3 : fitLoop udp mx m.additional s2 i2 with
              | error e => rw [h3] at h; dsimp only at h; exact Except.noConfusion h
              | ok t3 =>
                obtain ⟨s3, i3, st3⟩ := t3
                have b3 := fitLoop_bounds udp mx m.additional s2 i2 _ h3
                simp only at b3
                rw [h3] at h
                dsimp only at h
                split at h
                · rename_i hst3
                  injection h with h
                  subst h
                  have hbody : m.answer.length + m.authority.length ≤ m.bodyLength := by
                    unfold Msg.bodyLength
                    omega
                  refine ⟨fun hu => absurd (b3.2.2.2 hu) (by simp [hst3]), fun _ => ?_⟩
                  refine ⟨by simp, by simp only; omega, Or.inl (by simp only; omega)⟩
                · rename_i hst3
                  replace hst3 : st3 = false := by revert hst3; cases st3 <;> simp
                  have e3 := b3.2.2.1 hst3
                  have harc : m.bodyLength =
                      m.answer.length + m.authority.length + (m.additional.length +
                        (if m.edns.enabled then 1 else 0) +
                        (if m.tsig.isSome then 1 else 0) +
                        (if m.sig0.isSome then 1 else 0)) := by
                    unfold Msg.bodyLength Msg.arcount
                    omega
                  cases hE : m.edns.enabled with
                  | false =>
                    rw [hE] at h
                    rw [if_neg (by simp)] at h
                    dsimp only at h
                    have tl := gsTsig_spec m udp mx s2 i2 s3 i3 p h
                    refine ⟨tl.1, fun hu => ?_⟩
                    rcases tl.2 hu with h4 | h4 <;> rw [h4]
                    · refine ⟨by omega, ?_, Or.inl (by omega)⟩
                      rw [harc, hE]
                      simp only [Bool.false_eq_true, if_false]
                      omega
                    · refine ⟨by omega, ?_, Or.inr ?_⟩ <;>
                        (rw [harc, hE]; simp only [Bool.false_eq_true, if_false]) <;> omega
                  | true =>
                    rw [hE] at h
                    rw [if_pos rfl] at h
                    dsimp only at h
                    cases h4 : (m.edns.toRecord).getSize with
                    | error e => rw [h4] at h; dsimp only at h; exact Except.noConfusion h
                    | ok sz =>
                      rw [h4] at h
                      dsimp only at h
                      split at h
                      · rename_i hover
                        injection h with h
                        subst h
                        have hbody : m.answer.length + m.authority.length ≤ m.bodyLength := by
                          unfold Msg.bodyLength
                          omega
                        refine ⟨fun hu => by rw [hu] at hover; simp at hover, fun _ => ?_⟩
                        refine ⟨by simp, by simp only; omega, Or.inl (by simp only; omega)⟩
                      · have tl := gsTsig_spec m udp mx s2 i2 (s3 + sz) (i3 + 1) p h
                        refine ⟨tl.1, fun hu => ?_⟩
                        rcases tl.2 hu with h5 | h5 <;> rw [h5]
                        · refine ⟨by omega, ?_, Or.inl (by omega)⟩
                          rw [harc, hE]
                          simp only [if_true]
                          omega
                        · refine ⟨by omega, ?_, Or.inr ?_⟩ <;>
                            (rw [harc, hE]; simp only [if_true]) <;> omega

end Bns

namespace Bns

theorem writeRecs_spec :
    ∀ (rrs : List Rec) (bw : Writer) (items : Int) (acc : List Rec)
      (r : Writer × Int × List Rec × Bool), writeRecs rrs bw items acc = .ok r →
      (r.2.2.2 = true ∧ 1 ≤ items ∧ items ≤ (rrs.length : Int) ∧
        r.2.2.1 = acc ++ rrs.take items.toNat ∧ r.2.1 = 0) ∨
      (r.2.2.2 = false ∧ ¬(1 ≤ items ∧ items ≤ (rrs.length : Int)) ∧
        r.2.2.1 = acc ++ rrs ∧ r.2.1 = items - rrs.length) := by
  intro rrs
  induction rrs with
  | nil =>
    intro bw items acc r h
    simp [writeRecs] at h
    subst h
    right
    simp
    omega
  | cons rr rest ih =>
    intro bw items acc r h
    rw [writeRecs] at h
    cases hw : rr.write bw with
    | error e => rw [hw] at h; dsimp only at h; exact Except.noConfusion h
    | ok bw1 =>
      rw [hw] at h
      dsimp only at h
      split at h
      · rename_i hz
        injection h with h
        subst h
        left
        have h1 : items = 1 := by omega
        subst h1
        simp
      · rename_i hz
        rcases ih bw1 (items - 1) (acc ++ [rr]) r h with
          ⟨he, hge, hle, hacc, hit⟩ | ⟨he, hnot, hacc, hit⟩
        · left
          refine ⟨he, by omega, by simp; omega, ?_, hit⟩
          rw [hacc]
          have ht : items.toNat = (items - 1).toNat + 1 := by omega
          rw [ht, List.take_succ_cons, List.append_assoc]
          simp
        · right
          refine ⟨he, by simp; omega, ?_, by simp; omega⟩
          rw [hacc]
          simp
  
theorem writeSig0_m1 (m1 : Msg) (bw : Writer) (items : Int) (acc : List Rec)
    (r : Writer × Msg × List Rec) (h : writeSig0 m1 bw items acc = .ok r) :
    r.2.1 = m1 ∧ r.2.2 = acc ++ m1.sig0.toList := by
  unfold writeSig0 at h
  cases hs : m1.sig0 with
  | none => rw [hs] at h; dsimp only at h; injection h with h; subst h; simp
  | some rr =>
    rw [hs] at h
    dsimp only at h
    cases hw : rr.write bw with
    | error e => rw [hw] at h; dsimp only at h; exact Except.noConfusion h
    | ok bw1 =>
      rw [hw] at h
      dsimp only at h
      injection h with h
      subst h
      simp

theorem writeTsig_m1 (m1 : Msg) (bw : Writer) (items : Int) (acc : List Rec)
    (r : Writer × Msg × List Rec)
    (hitems : items = ((m1.tsig.toList.length + m1.sig0.toList.length : Nat) : Int))
    (h : writeTsig m1 bw items acc = .ok r) :
    r.2.1 = m1 ∧ r.2.2 = acc ++ m1.tsig.toList ++ m1.sig0.toList := by
  unfold writeTsig at h
  cases hs : m1.tsig with
  | none =>
    rw [hs] at h
    dsimp only at h
    have := writeSig0_m1 m1 bw items acc r h
    simp [hs, this.1, this.2]
  | some rr =>
    rw [hs] at h
    dsimp only at h
    rw [hs] at hitems
    simp only [Option.toList_some, List.length_cons, List.length_nil] at hitems
    cases hw : rr.write bw with
    | error e => rw [hw] at h; dsimp only at h; exact Except.noConfusion h
    | ok bw1 =>
      rw [hw] at h
      dsimp only at h
      split at h
      · rename_i hz
        have hnone : m1.sig0 = none := by
          cases hx : m1.sig0 with
          | none => rfl
          | some rr2 =>
            rw [hx] at hitems
            simp only [Option.toList_some, List.length_cons, List.length_nil] at hitems
            exfalso
            omega
        injection h with h
        subst h
        simp [hs, hnone]
      · have := writeSig0_m1 m1 bw1 (items - 1) (acc ++ [rr]) r h
        rw [this.2]
        refine ⟨this.1, by simp [hs]⟩

theorem writeEdnsTail_m1 (m : Msg) (bw : Writer) (items : Int) (acc : List Rec)
    (r : Writer × Msg × List Rec)
    (hitems : items = (((if (if 0x0f < m.code then spliceEdns m else m).edns.enabled
        then 1 else 0) + m.tsig.toList.length + m.sig0.toList.length : Nat) : Int))
    (h : writeEdnsTail m bw items acc = .ok r) :
    r.2.1 = (if 0x0f < m.code then spliceEdns m else m) ∧
    r.2.2 = acc ++
      (if (if 0x0f < m.code then spliceEdns m else m).edns.enabled
       then [(if 0x0f < m.code then spliceEdns m else m).edns.toRecord] else []) ++
      m.tsig.toList ++ m.sig0.toList := by
  unfold writeEdnsTail at h
  dsimp only at h
  set m1 := if 0x0f < m.code then spliceEdns m else m with hm1
  have htsig : m1.tsig = m.tsig := by
    rw [hm1]; split <;> simp [spliceEdns]
  have hsig0 : m1.sig0 = m.sig0 := by
    rw [hm1]; split <;> simp [spliceEdns]
  rw [← htsig, ← hsig0] at hitems ⊢
  cases hE : m1.edns.enabled with
  | false =>
    rw [hE] at h hitems
    rw [if_neg (by simp)] at h
    simp only [Nat.zero_add, if_false, Bool.false_eq_true] at hitems
    have := writeTsig_m1 m1 bw items acc r (by omega) h
    rw [this.2]
    simp [this.1]
  | true =>
    rw [hE] at h hitems
    rw [if_pos rfl] at h
    simp only [if_true] at hitems
    cases hw : (m1.edns.toRecord).write bw with
    | error e => rw [hw] at h; dsimp only at h; exact Except.noConfusion h
    | ok bw1 =>
      rw [hw] at h
      dsimp only at h
      split at h
      · rename_i hz
        have ht0 : m1.tsig = none ∧ m1.sig0 = none := by
          cases hx : m1.tsig <;> cases hy : m1.sig0 <;>
            rw [hx, hy] at hitems <;>
            simp only [Option.toList_some, Option.toList_none, List.length_cons,
              List.length_nil] at hitems <;>
            first
              | exact ⟨rfl, rfl⟩
              | (exfalso; omega)
        injection h with h
        subst h
        simp [ht0.1, ht0.2]
      · have := writeTsig_m1 m1 bw1 (items - 1) (acc ++ [m1.edns.toRecord]) r (by omega) h
        rw [this.2]
        simp [this.1]

end Bns

namespace Bns

theorem writeTsig_fst (m1 : Msg) (bw : Writer) (items : Int) (acc : List Rec)
    (r : Writer × Msg × List Rec) (h : writeTsig m1 bw items acc = .ok r) :
    r.2.1 = m1 := by
  unfold writeTsig at h
  cases hs : m1.tsig with
  | none =>
    rw [hs] at h
    dsimp only at h
    exact (writeSig0_m1 m1 bw items acc r h).1
  | some rr =>
    rw [hs] at h
    dsimp only at h
    cases hw : rr.write bw with
    | error e => rw [hw] at h; dsimp only at h; exact Except.noConfusion h
    | ok bw1 =>
      rw [hw] at h
      dsimp only at h
      split at h
      · injection h with h
        subst h
        rfl
      · exact (writeSig0_m1 m1 bw1 (items - 1) (acc ++ [rr]) r h).1

theorem writeEdnsTail_fst (m : Msg) (bw : Writer) (items : Int) (acc : List Rec)
    (r : Writer × Msg × List Rec) (h : writeEdnsTail m bw items acc = .ok r) :
    r.2.1 = (if 0x0f < m.code then spliceEdns m else m) := by
  unfold writeEdnsTail at h
  dsimp only at h
  set m1 := if 0x0f < m.code then spliceEdns m else m with hm1
  cases hE : m1.edns.enabled with
  | false =>
    rw [hE] at h
    rw [if_neg (by simp)] at h
    exact writeTsig_fst m1 bw items acc r h
  | true =>
    rw [hE] at h
    rw [if_pos rfl] at h
    cases hw : (m1.edns.toRecord).write bw with
    | error e => rw [hw] at h; dsimp only at h; exact Except.noConfusion h
    | ok bw1 =>
      rw [hw] at h
      dsimp only at h
      split at h
      · injection h with h
        subst h
        rfl
      · exact writeTsig_fst m1 bw1 (items - 1) (acc ++ [m1.edns.toRecord]) r h

/-- C10 amended: under `encode` (the non-UDP write, item budget -1), the
receiver comes back unchanged whenever its code fits the header nibble; for a
code above 15 it comes back mutated by the EDNS splice (`spliceEdns`) exactly
when the message has EDNS enabled, a TSIG, a SIG(0), or no
answer/authority/additional records at all -- otherwise the item budget
expires inside the record loops and the mutation is skipped, so the receiver
is returned unchanged. -/
theorem claimC10_amended (m : Msg) (bytes : List Nat) (m1 : Msg)
    (h : m.encodeFull false = .ok (bytes, m1)) :
    (m.code ≤ 0x0f → m1 = m) ∧
    (0x0f < m.code →
      m1 = if m.edns.enabled = true ∨ m.tsig.isSome = true ∨ m.sig0.isSome = true ∨
              m.answer.length + m.authority.length + m.additional.length = 0
           then spliceEdns m else m) := by
  have hcond : (m.edns.enabled = true ∨ m.tsig.isSome = true ∨ m.sig0.isSome = true ∨
      m.answer.length + m.authority.length + m.additional.length = 0) ↔
      (1 ≤ (if m.edns.enabled then 1 else 0) + m.tsig.toList.length + m.sig0.toList.length ∨
       m.answer.length + m.authority.length + m.additional.length = 0) := by
    cases m.edns.enabled <;> cases m.tsig <;> cases m.sig0 <;> simp
  have harc : m.bodyLength = m.answer.length + m.authority.length + m.additional.length +
      ((if m.edns.enabled then 1 else 0) + m.tsig.toList.length + m.sig0.toList.length) := by
    unfold Msg.bodyLength Msg.arcount
    cases m.edns.enabled <;> cases m.tsig <;> cases m.sig0 <;> simp <;> omega
  set k := (if m.edns.enabled then 1 else 0) + m.tsig.toList.length + m.sig0.toList.length
    with hk
  unfold Msg.encodeFull at h
  cases hg : m.getSizes false with
  | error e => rw [hg] at h; dsimp only at h; exact Except.noConfusion h
  | ok p =>
    obtain ⟨sz, it⟩ := p
    have hit : it = -1 := (getSizes_spec m false (sz, it) hg).1 rfl
    subst hit
    rw [hg] at h
    dsimp only at h
    cases hw : m.write ⟨List.replicate sz 0, 0⟩ (-1) with
    | error e => rw [hw] at h; dsimp only at h; exact Except.noConfusion h
    | ok w =>
      obtain ⟨bwf, mm, acc⟩ := w
      rw [hw] at h
      dsimp only at h
      cases hr : bwf.render with
      | error e => rw [hr] at h; dsimp only at h; exact Except.noConfusion h
      | ok out =>
        rw [hr] at h
        dsimp only at h
        injection h with h
        injection h with hbytes hm1
        subst hm1
        -- analyze the write
        unfold Msg.write at hw
        dsimp only at hw
        rw [if_pos rfl] at hw
        cases hH : writeHeader m ⟨List.replicate sz 0, 0⟩ (↑m.bodyLength) (↑m.bodyLength) with
        | error e => rw [hH] at hw; dsimp only at hw; exact Except.noConfusion hw
        | ok bwh =>
          rw [hH] at hw
          dsimp only at hw
          cases h1 : writeRecs m.answer bwh (↑m.bodyLength) [] with
          | error e => rw [h1] at hw; dsimp only at hw; exact Except.noConfusion hw
          | ok r1 =>
            obtain ⟨w1, it1, acc1, e1⟩ := r1
            have s1 := writeRecs_spec m.answer bwh (↑m.bodyLength) [] _ h1
            simp only at s1
            rw [h1] at hw
            dsimp only at hw
            split at hw
            · -- early return inside the answer loop
              rename_i he1
              injection hw with hw
              injection hw with hw1 hw2
              injection hw2 with hwm hwa
              rcases s1 with ⟨_, hge, hle, _, _⟩ | ⟨hf, _, _, _⟩
              · constructor
                · intro _; exact hwm.symm
                · intro _
                  rw [if_neg ?_]
                  · exact hwm.symm
                  · rw [hcond]
                    omega
              · rw [hf] at he1; exact absurd he1 (by simp)
            · rename_i he1
              replace he1 : e1 = false := by revert he1; cases e1 <;> simp
              rcases s1 with ⟨ht, _, _, _, _⟩ | ⟨_, hn1, _, hi1⟩
              · rw [ht] at he1; exact absurd he1 (by simp)
              · cases h2 : writeRecs m.authority w1 it1 acc1 with
                | error e => rw [h2] at hw; dsimp only at hw; exact Except.noConfusion hw
                | ok r2 =>
                  obtain ⟨w2, it2, acc2, e2⟩ := r2
                  have s2 := writeRecs_spec m.authority w1 it1 acc1 _ h2
                  simp only at s2
                  rw [h2] at hw
                  dsimp only at hw
                  split at hw
                  · rename_i he2
                    injection hw with hw
                    injection hw with hw1 hw2
                    injection hw2 with hwm hwa
                    rcases s2 with ⟨_, hge, hle, _, _⟩ | ⟨hf, _, _, _⟩
                    · constructor
                      · intro _; exact hwm.symm
                      · intro _
                        rw [if_neg ?_]
                        · exact hwm.symm
                        · rw [hcond]
                          omega
                    · rw [hf] at he2; exact absurd he2 (by simp)
                  · rename_i he2
                    replace he2 : e2 = false := by revert he2; cases e2 <;> simp
                    rcases s2 with ⟨ht, _, _, _, _⟩ | ⟨_, hn2, _, hi2⟩
                    · rw [ht] at he2; exact absurd he2 (by simp)
                    · cases h3 : writeRecs m.additional w2 it2 acc2 with
                      | error e =>
                        rw [h3] at hw; dsimp only at hw; exact Except.noConfusion hw
                      | ok r3 =>
                        obtain ⟨w3, it3, acc3, e3⟩ := r3
                        have s3 := writeRecs_spec m.additional w2 it2 acc2 _ h3
                        simp only at s3
                        rw [h3] at hw
                        dsimp only at hw
                        split at hw
                        · rename_i he3
                          injection hw with hw
                          injection hw with hw1 hw2
                          injection hw2 with hwm hwa
                          rcases s3 with ⟨_, hge, hle, _, _⟩ | ⟨hf, _, _, _⟩
                          · constructor
                            · intro _; exact hwm.symm
                            · intro _
                              rw [if_neg ?_]
                              · exact hwm.symm
                              · rw [hcond]
                                omega
                          · rw [hf] at he3; exact absurd he3 (by simp)
                        · rename_i he3
                          replace he3 : e3 = false := by revert he3; cases e3 <;> simp
                          rcases s3 with ⟨ht, _, _, _, _⟩ | ⟨_, hn3, _, hi3⟩
                          · rw [ht] at he3; exact absurd he3 (by simp)
                          · have hfst := writeEdnsTail_fst m w3 it3 acc3 _ hw
                            simp only at hfst
                            constructor
                            · intro hc
                              rw [hfst]
                              rw [if_neg (by omega)]
                            · intro hc
                              rw [hfst, if_pos hc]
                              have hcv : m.edns.enabled = true ∨ m.tsig.isSome = true ∨
                                  m.sig0.isSome = true ∨ m.answer.length +
                                    m.authority.length + m.additional.length = 0 := by
                                rw [hcond]
                                omega
                              rw [if_pos hcv]

/-- C10 witness: `msgC10w` (code 16, EDNS enabled, one answer record)
satisfies the amended theorem's hypotheses; encoding it mutates the receiver
by the EDNS splice. -/
theorem claimC10_witness :
    ∃ p : List Nat × Msg, msgC10w.encodeFull false = .ok p ∧ p.2 = spliceEdns msgC10w := by
  have hmap : (msgC10w.encodeFull false).map Prod.snd = .ok (spliceEdns msgC10w) := by decide
  cases hE : msgC10w.encodeFull false with
  | error e => rw [hE] at hmap; simp [Except.map] at hmap
  | ok p =>
    refine ⟨p, rfl, ?_⟩
    obtain ⟨bytes, m1⟩ := p
    have h := (claimC10_amended msgC10w bytes m1 hE).2 (by decide)
    rw [h, if_pos (Or.inl (by decide))]

end Bns

namespace Bns

theorem and_tc_ne_zero (x : Nat) : x &&& flagsTC ≠ 0 ↔ x.testBit 9 := by
  have h : flagsTC = 2 ^ 9 := by decide
  rw [h, Nat.and_two_pow]
  cases hx : x.testBit 9 <;> simp

theorem headerBits_tc (flags opcode code : Nat) (items body : Int)
    (htc : flags &&& flagsTC = 0) :
    (headerBits flags opcode code items body) &&& flagsTC ≠ 0 ↔ items < body := by
  have hf9 : flags.testBit 9 = false := by
    by_contra hb
    rw [Bool.not_eq_false] at hb
    exact (and_tc_ne_zero flags).2 hb htc
  have hb4 : ((flags &&& 0xffff87ff ||| (opcode &&& 0x0f) <<< 11) &&& 0xfffffff0 |||
      (code &&& 0x0f)).testBit 9 = false := by
    simp [Nat.testBit_or, Nat.testBit_and, Nat.testBit_shiftLeft, hf9]
    intro _
    decide
  unfold headerBits
  dsimp only
  split
  · rename_i hlt
    simp only [hlt, iff_true]
    rw [and_tc_ne_zero]
    simp only [Nat.testBit_or, Bool.or_eq_true]
    right
    decide
  · rename_i hge
    constructor
    · intro hne
      rw [and_tc_ne_zero] at hne
      rw [hb4] at hne
      simp at hne
    · intro hlt
      exact absurd hlt hge

theorem recSeq_length (m : Msg) : (recSeq m).length = m.bodyLength := by
  unfold recSeq Msg.bodyLength Msg.arcount
  cases m.edns.enabled <;> cases m.tsig <;> cases m.sig0 <;> simp <;> omega

/-- C2 amended: for a UDP serialization plan `getSizes true = .ok (sz, items)`
of a message whose TC flag is not already set and whose code fits the header
nibble: (i) the planned item count lies between 0 and the body length;
(ii) either the whole additional block (records, OPT, TSIG, SIG(0)) fits
(`items = bodyLength`) or it is dropped en bloc
(`items ≤ answer.length + authority.length`); (iii) the TC bit is set in the
emitted flags word iff at least one record was dropped (`items < bodyLength`);
and (iv) whenever the plan allows at least one record (or the body is empty),
`Message.write` emits exactly the planned prefix of the emission order
`answer ++ authority ++ additional ++ OPT? ++ TSIG? ++ SIG(0)?`. -/
theorem claimC2_amended (m : Msg) (sz : Nat) (items : Int)
    (h : m.getSizes true = .ok (sz, items))
    (htc : m.flags &&& flagsTC = 0) (hcode : m.code ≤ 0x0f) :
    (0 ≤ items ∧ items ≤ (m.bodyLength : Int)) ∧
    (items ≤ ((m.answer.length + m.authority.length : Nat) : Int) ∨
      items = (m.bodyLength : Int)) ∧
    ((headerBits m.flags m.opcode m.code items (m.bodyLength : Int)) &&& flagsTC ≠ 0 ↔
      items < (m.bodyLength : Int)) ∧
    ((1 ≤ items ∨ m.bodyLength = 0) →
      ∀ (bw : Writer) (r : Writer × Msg × List Rec), Msg.write m bw items = .ok r →
        r.2.2 = (recSeq m).take items.toNat) := by
  have hspec := (getSizes_spec m true (sz, items) h).2 rfl
  simp only at hspec
  obtain ⟨hge0, hlebody, hdisj⟩ := hspec
  refine ⟨⟨hge0, hlebody⟩, hdisj, headerBits_tc _ _ _ _ _ htc, ?_⟩
  intro hpos bw r hw
  have harc : m.bodyLength = m.answer.length + m.authority.length + m.additional.length +
      ((if m.edns.enabled then 1 else 0) + m.tsig.toList.length + m.sig0.toList.length) := by
    unfold Msg.bodyLength Msg.arcount
    cases m.edns.enabled <;> cases m.tsig <;> cases m.sig0 <;> simp <;> omega
  set k := (if m.edns.enabled then 1 else 0) + m.tsig.toList.length + m.sig0.toList.length
    with hk
  unfold Msg.write at hw
  dsimp only at hw
  rw [if_neg (by omega)] at hw
  cases hH : writeHeader m bw items (↑m.bodyLength) with
  | error e => rw [hH] at hw; dsimp only at hw; exact Except.noConfusion hw
  | ok bwh =>
    rw [hH] at hw
    dsimp only at hw
    cases h1 : writeRecs m.answer bwh items [] with
    | error e => rw [h1] at hw; dsimp only at hw; exact Except.noConfusion hw
    | ok r1 =>
      obtain ⟨w1, it1, acc1, e1⟩ := r1
      have s1 := writeRecs_spec m.answer bwh items [] _ h1
      simp only at s1
      rw [h1] at hw
      dsimp only at hw
      split at hw
      · -- early inside answer
        rename_i he1
        injection hw with hw
        subst hw
        rcases s1 with ⟨_, hge, hle, hacc, _⟩ | ⟨hf, _, _, _⟩
        · dsimp only
          rw [hacc]
          unfold recSeq
          rw [List.take_append_eq_append_take]
          have hz : items.toNat - m.answer.length = 0 := by omega
          rw [hz]
          simp
        · rw [hf] at he1; exact absurd he1 (by simp)
      · rename_i he1
        replace he1 : e1 = false := by revert he1; cases e1 <;> simp
        rcases s1 with ⟨ht, _, _, _, _⟩ | ⟨_, hn1, hacc1, hi1⟩
        · rw [ht] at he1; exact absurd he1 (by simp)
        · cases h2 : writeRecs m.authority w1 it1 acc1 with
          | error e => rw [h2] at hw; dsimp only at hw; exact Except.noConfusion hw
          | ok r2 =>
            obtain ⟨w2, it2, acc2, e2⟩ := r2
            have s2 := writeRecs_spec m.authority w1 it1 acc1 _ h2
            simp only at s2
            rw [h2] at hw
            dsimp only at hw
            split at hw
            · -- early inside authority
              rename_i he2
              injection hw with hw
              subst hw
              rcases s2 with ⟨_, hge, hle, hacc, _⟩ | ⟨hf, _, _, _⟩
              · dsimp only
                rw [hacc, hacc1, hi1]
                have hA : m.answer.length ≤ items.toNat := by omega
                have hrhs : (recSeq m).take items.toNat =
                    m.answer ++ m.authority.take (items.toNat - m.answer.length) := by
                  unfold recSeq
                  rw [List.take_append_eq_append_take, List.take_of_length_le hA,
                    List.take_append_eq_append_take,
                    show items.toNat - m.answer.length - m.authority.length = 0 from by omega]
                  simp
                rw [hrhs, show (items - (m.answer.length : Int)).toNat =
                    items.toNat - m.answer.length from by omega]
                simp
              · rw [hf] at he2; exact absurd he2 (by simp)
            · rename_i he2
              replace he2 : e2 = false := by revert he2; cases e2 <;> simp
              rcases s2 with ⟨ht, _, _, _, _⟩ | ⟨_, hn2, hacc2, hi2⟩
              · rw [ht] at he2; exact absurd he2 (by simp)
              · cases h3 : writeRecs m.additional w2 it2 acc2 with
                | error e => rw [h3] at hw; dsimp only at hw; exact Except.noConfusion hw
                | ok r3 =>
                  obtain ⟨w3, it3, acc3, e3⟩ := r3
                  have s3 := writeRecs_spec m.additional w2 it2 acc2 _ h3
                  simp only at s3
                  rw [h3] at hw
                  dsimp only at hw
                  split at hw
                  · -- early inside additional
                    rename_i he3
                    injection hw with hw
                    subst hw
                    rcases s3 with ⟨_, hge, hle, hacc, _⟩ | ⟨hf, _, _, _⟩
                    · dsimp only
                      rw [hacc, hacc2, hacc1, hi2, hi1]
                      have hA : m.answer.length ≤ items.toNat := by omega
                      have hB : m.authority.length ≤ items.toNat - m.answer.length := by
                        omega
                      have hrhs : (recSeq m).take items.toNat =
                          m.answer ++ (m.authority ++ m.additional.take
                            (items.toNat - m.answer.length - m.authority.length)) := by
                        unfold recSeq
                        rw [List.take_append_eq_append_take, List.take_of_length_le hA,
                          List.take_append_eq_append_take, List.take_of_length_le hB,
                          List.take_append_eq_append_take,
                          show items.toNat - m.answer.length - m.authority.length -
                            m.additional.length = 0 from by omega]
                        simp
                      rw [hrhs, show (items - (m.answer.length : Int) -
                          (m.authority.length : Int)).toNat =
                          items.toNat - m.answer.length - m.authority.length from by omega]
                      simp
                    · rw [hf] at he3; exact absurd he3 (by simp)
                  · rename_i he3
                    replace he3 : e3 = false := by revert he3; cases e3 <;> simp
                    rcases s3 with ⟨ht, _, _, _, _⟩ | ⟨_, hn3, hacc3, hi3⟩
                    · rw [ht] at he3; exact absurd he3 (by simp)
                    · -- nothing truncated: items = bodyLength
                      have hitems : items = (m.bodyLength : Int) := by omega
                      have hm1 : (if 0x0f < m.code then spliceEdns m else m) = m :=
                        if_neg (by omega)
                      have htl := writeEdnsTail_m1 m w3 it3 acc3 _
                        (by rw [hm1]; rw [hi3, hi2, hi1]; rw [← hk]; omega) hw
                      rw [htl.2, hm1, hacc3, hacc2, hacc1]
                      rw [List.take_of_length_le (by rw [recSeq_length]; omega)]
                      unfold recSeq
                      simp

/-- C2 witness: `msgC2udp` (489-octet answer plus an additional record, TC
clear, code 0) plans `(512, 1)` for UDP, and since `1 < bodyLength = 2` the
amended statement forces the TC bit in the emitted flags word. -/
theorem claimC2_witness :
    msgC2udp.getSizes true = .ok (512, (1 : Int)) ∧
    (headerBits msgC2udp.flags msgC2udp.opcode msgC2udp.code 1
      ((msgC2udp.bodyLength : Nat) : Int)) &&& flagsTC ≠ 0 := by
  have h : msgC2udp.getSizes true = .ok (512, (1 : Int)) := by decide
  refine ⟨h, ?_⟩
  have hc := claimC2_amended msgC2udp 512 1 h (by decide) (by decide)
  exact hc.2.2.1.mpr (by decide)

end Bns

namespace Bns

set_option maxHeartbeats 2000000 in
theorem recBadvers_read (lo h : Nat) :
    Rec.read ⟨bufBadvers lo h, 12⟩ = .ok (recBadvers h, ⟨bufBadvers lo h, 23⟩) := by
  unfold Rec.read
  rw [show readNameBR ⟨bufBadvers lo h, 12⟩ = .ok (".", ⟨bufBadvers lo h, 13⟩) from rfl]
  dsimp only
  rw [show BufReader.readU16BE ⟨bufBadvers lo h, 13⟩ =
    .ok (0 * 0x100 + 41, ⟨bufBadvers lo h, 15⟩) from rfl]
  dsimp only
  rw [show BufReader.readU16BE ⟨bufBadvers lo h, 15⟩ =
    .ok (2 * 0x100 + 0, ⟨bufBadvers lo h, 17⟩) from rfl]
  dsimp only
  rw [show BufReader.readU32BE ⟨bufBadvers lo h, 17⟩ =
    .ok (h * 0x1000000 + 0 * 0x10000 + 0 * 0x100 + 0, ⟨bufBadvers lo h, 21⟩) from rfl]
  dsimp only
  rw [show readData (0 * 0x100 + 41) ⟨bufBadvers lo h, 21⟩ =
    .ok (.opt [], ⟨bufBadvers lo h, 23⟩) from rfl]
  rfl

end Bns

namespace Bns

theorem readRecsLoop_zero (tc : Bool) (br : BufReader) (acc : List Rec) :
    readRecsLoop tc (0 * 0x100 + 0) br acc = .ok (acc, br, false) := rfl

theorem readAddLoop_badvers (lo h : Nat) (m : Msg) :
    readAddLoop (0 * 0x100 + 1) ⟨bufBadvers lo h, 12⟩ m =
      .ok ({ m with edns := m.edns.setRecord (recBadvers h)
                    code := (m.code &&& 0x0f) |||
                      ((m.edns.setRecord (recBadvers h)).code <<< 4) },
        ⟨bufBadvers lo h, 23⟩, false) := by
  rw [show (0 * 0x100 + 1 : Nat) = 0 + 1 from by norm_num]
  rw [readAddLoop]
  rw [if_neg (by rw [show (⟨bufBadvers lo h, 12⟩ : BufReader).left = 11 from rfl]; omega :
    ¬((⟨bufBadvers lo h, 12⟩ : BufReader).left = 0))]
  rw [recBadvers_read]
  dsimp only
  rw [if_pos (show (recBadvers h).isOPT = true from rfl)]
  rfl

end Bns

namespace Bns

set_option maxHeartbeats 2000000 in
theorem decodeBadvers (lo h : Nat) (hlo : lo < 16) (hh : h < 256) :
    (Msg.decode (bufBadvers lo h)).map Msg.code = .ok (lo ||| (h <<< 4)) := by
  unfold Msg.decode Msg.read
  rw [show BufReader.readU16BE ⟨bufBadvers lo h, 0⟩ =
    .ok (0 * 0x100 + 0, ⟨bufBadvers lo h, 2⟩) from rfl]
  dsimp only
  rw [show BufReader.readU16BE ⟨bufBadvers lo h, 2⟩ =
    .ok (0 * 0x100 + lo, ⟨bufBadvers lo h, 4⟩) from rfl]
  dsimp only
  rw [show BufReader.readU16BE ⟨bufBadvers lo h, 4⟩ =
    .ok (0 * 0x100 + 0, ⟨bufBadvers lo h, 6⟩) from rfl]
  dsimp only
  rw [show BufReader.readU16BE ⟨bufBadvers lo h, 6⟩ =
    .ok (0 * 0x100 + 0, ⟨bufBadvers lo h, 8⟩) from rfl]
  dsimp only
  rw [show BufReader.readU16BE ⟨bufBadvers lo h, 8⟩ =
    .ok (0 * 0x100 + 0, ⟨bufBadvers lo h, 10⟩) from rfl]
  dsimp only
  rw [show BufReader.readU16BE ⟨bufBadvers lo h, 10⟩ =
    .ok (0 * 0x100 + 1, ⟨bufBadvers lo h, 12⟩) from rfl]
  dsimp only
  rw [show readQsLoop (0 * 0x100 + 0) ⟨bufBadvers lo h, 12⟩ [] =
    .ok ([], ⟨bufBadvers lo h, 12⟩, false) from rfl]
  dsimp only
  simp only [Bool.false_eq_true, if_false]
  rw [readRecsLoop_zero]
  dsimp only
  simp only [Bool.false_eq_true, if_false]
  rw [readRecsLoop_zero]
  dsimp only
  simp only [Bool.false_eq_true, if_false]
  rw [readAddLoop_badvers]
  dsimp only
  simp only [Bool.false_eq_true, if_false]
  rw [if_neg (by rw [show (⟨bufBadvers lo h, 23⟩ : BufReader).left = 0 from rfl]; omega :
    ¬(0 < (⟨bufBadvers lo h, 23⟩ : BufReader).left))]
  dsimp only [Except.map]
  congr 1
  have hcode : (emptyEdns.setRecord (recBadvers h)).code = h := by
    unfold Edns.setRecord recBadvers
    dsimp only
    norm_num
    rw [Nat.shiftRight_eq_div_pow]
    rw [show (2 : Nat) ^ 24 = 16777216 from by norm_num]
    rw [Nat.mul_div_cancel _ (by norm_num : (0 : Nat) < 16777216)]
    have h2 := Nat.and_pow_two_sub_one_eq_mod h 8
    norm_num at h2
    rw [h2]
    omega
  rw [hcode]
  have hloq : (0 * 0x100 + lo) &&& 0x0f &&& 0x0f = lo := by
    norm_num
    rw [Nat.and_assoc]
    have h1 := Nat.and_pow_two_sub_one_eq_mod lo 4
    norm_num at h1 ⊢
    rw [h1]
    omega
  rw [hloq]

end Bns

namespace Bns

theorem badversMsg_getSizes (c : Nat) :
    (badversMsg c).getSizes false = .ok (23, -1) := rfl

theorem badversMsg_headerBits (c : Nat) :
    headerBits (badversMsg c).flags (badversMsg c).opcode (badversMsg c).code 1 1 =
      c &&& 0x0f := by
  unfold headerBits
  dsimp only
  rw [if_neg (by omega : ¬((1 : Int) < 1))]
  rw [show (badversMsg c).flags = 0 from rfl, show (badversMsg c).opcode = 0 from rfl,
    show (badversMsg c).code = c from by with_unfolding_all rfl]
  show (0 ||| (c &&& 0x0f)) = c &&& 0x0f
  rw [Nat.zero_or]

theorem writeHeader_badvers (c : Nat) :
    writeHeader (badversMsg c) ⟨List.replicate 23 0, 0⟩ 1 1 = .ok ⟨[0, 0, 0, c &&& 0x0f, 0, 0, 0, 0, 0, 0, 0, 1, 0, 0, 0, 0, 0, 0, 0, 0, 0, 0, 0], 12⟩ := by
  have e1 : ((c &&& 0x0f) >>> 8) &&& 0xff = 0 := by
    have hc : c &&& 0x0f ≤ 15 := Nat.and_le_right
    rw [Nat.shiftRight_eq_div_pow, Nat.div_eq_of_lt (by omega)]
    rfl
  have e2 : (c &&& 0x0f) &&& 0xff = c &&& 0x0f := by
    rw [Nat.and_assoc]
    rfl
  unfold writeHeader
  rw [badversMsg_headerBits, show (badversMsg c).id = 0 from rfl,
    show (badversMsg c).question.length = 0 from rfl,
    show (badversMsg c).answer.length = 0 from rfl,
    show (badversMsg c).authority.length = 0 from rfl,
    show (badversMsg c).arcount = 1 from rfl,
    show (badversMsg c).question = ([] : List Question) from by with_unfolding_all rfl]
  rw [show Writer.writeU16BE ⟨List.replicate 23 0, 0⟩ 0 =
    .ok ⟨[0, 0, 0, 0, 0, 0, 0, 0, 0, 0, 0, 0, 0, 0, 0, 0, 0, 0, 0, 0, 0, 0, 0], 2⟩ from by with_unfolding_all rfl]
  dsimp only
  rw [show Writer.writeU16BE ⟨[0, 0, 0, 0, 0, 0, 0, 0, 0, 0, 0, 0, 0, 0, 0, 0, 0, 0, 0, 0, 0, 0, 0], 2⟩ (c &&& 0x0f) =
    .ok ⟨[0, 0, 0, c &&& 0x0f, 0, 0, 0, 0, 0, 0, 0, 0, 0, 0, 0, 0, 0, 0, 0, 0, 0, 0, 0], 4⟩ from by
      unfold Writer.writeU16BE
      rw [if_pos ⟨le_trans Nat.and_le_right (by norm_num), by norm_num⟩]
      rw [e1, e2]
      rfl]
  dsimp only
  rw [show Writer.writeU16BE ⟨[0, 0, 0, c &&& 0x0f, 0, 0, 0, 0, 0, 0, 0, 0, 0, 0, 0, 0, 0, 0, 0, 0, 0, 0, 0], 4⟩ 0 = .ok ⟨[0, 0, 0, c &&& 0x0f, 0, 0, 0, 0, 0, 0, 0, 0, 0, 0, 0, 0, 0, 0, 0, 0, 0, 0, 0], 6⟩ from by with_unfolding_all rfl]
  dsimp only
  rw [show Writer.writeU16BE ⟨[0, 0, 0, c &&& 0x0f, 0, 0, 0, 0, 0, 0, 0, 0, 0, 0, 0, 0, 0, 0, 0, 0, 0, 0, 0], 6⟩ 0 = .ok ⟨[0, 0, 0, c &&& 0x0f, 0, 0, 0, 0, 0, 0, 0, 0, 0, 0, 0, 0, 0, 0, 0, 0, 0, 0, 0], 8⟩ from by with_unfolding_all rfl]
  dsimp only
  rw [show Writer.writeU16BE ⟨[0, 0, 0, c &&& 0x0f, 0, 0, 0, 0, 0, 0, 0, 0, 0, 0, 0, 0, 0, 0, 0, 0, 0, 0, 0], 8⟩ 0 = .ok ⟨[0, 0, 0, c &&& 0x0f, 0, 0, 0, 0, 0, 0, 0, 0, 0, 0, 0, 0, 0, 0, 0, 0, 0, 0, 0], 10⟩ from by with_unfolding_all rfl]
  dsimp only
  rw [show Writer.writeU16BE ⟨[0, 0, 0, c &&& 0x0f, 0, 0, 0, 0, 0, 0, 0, 0, 0, 0, 0, 0, 0, 0, 0, 0, 0, 0, 0], 10⟩ 1 = .ok ⟨[0, 0, 0, c &&& 0x0f, 0, 0, 0, 0, 0, 0, 0, 1, 0, 0, 0, 0, 0, 0, 0, 0, 0, 0, 0], 12⟩ from by with_unfolding_all rfl]
  dsimp only
  rfl

theorem writeOpt_badvers (c : Nat) :
    Rec.write ((spliceEdns (badversMsg c)).edns.toRecord) ⟨[0, 0, 0, c &&& 0x0f, 0, 0, 0, 0, 0, 0, 0, 1, 0, 0, 0, 0, 0, 0, 0, 0, 0, 0, 0], 12⟩ =
      .ok ⟨[0, 0, 0, c &&& 0x0f, 0, 0, 0, 0, 0, 0, 0, 1, 0, 0, 41, 2, 0, (c >>> 4) &&& 0xff, 0, 0, 0, 0, 0], 23⟩ := by
  have hx : (c >>> 4) &&& 0xff ≤ 255 := Nat.and_le_right
  have hV : ((spliceEdns (badversMsg c)).edns.toRecord).ttl =
      ((c >>> 4) &&& 0xff) <<< 24 := by
    show ((((spliceEdns (badversMsg c)).edns.code &&& 0xff) <<< 24) |||
        (((spliceEdns (badversMsg c)).edns.version &&& 0xff) <<< 16)) |||
        ((spliceEdns (badversMsg c)).edns.flags &&& 0xffff) =
      ((c >>> 4) &&& 0xff) <<< 24
    rw [show (spliceEdns (badversMsg c)).edns.code = c >>> 4 from rfl,
      show (spliceEdns (badversMsg c)).edns.version = 0 from rfl,
      show (spliceEdns (badversMsg c)).edns.flags = 0 from by with_unfolding_all rfl]
    rw [show ((0 : Nat) &&& 0xff) <<< 16 = 0 from rfl, show (0 : Nat) &&& 0xffff = 0 from rfl,
      Nat.or_zero, Nat.or_zero]
  have b17 : ((((c >>> 4) &&& 0xff) <<< 24) >>> 24) &&& 0xff = (c >>> 4) &&& 0xff := by
    rw [Nat.shiftLeft_eq, Nat.shiftRight_eq_div_pow,
      Nat.mul_div_cancel _ (by norm_num : (0 : Nat) < 2 ^ 24), Nat.and_assoc]
    rfl
  have hmod8 := Nat.and_pow_two_sub_one_eq_mod ((((c >>> 4) &&& 0xff) <<< 24) >>> 16) 8
  have hmod8b := Nat.and_pow_two_sub_one_eq_mod ((((c >>> 4) &&& 0xff) <<< 24) >>> 8) 8
  have hmod8c := Nat.and_pow_two_sub_one_eq_mod (((c >>> 4) &&& 0xff) <<< 24) 8
  have b18 : ((((c >>> 4) &&& 0xff) <<< 24) >>> 16) &&& 0xff = 0 := by
    norm_num at hmod8
    rw [hmod8, Nat.shiftLeft_eq, Nat.shiftRight_eq_div_pow]
    norm_num
    omega
  have b19 : ((((c >>> 4) &&& 0xff) <<< 24) >>> 8) &&& 0xff = 0 := by
    norm_num at hmod8b
    rw [hmod8b, Nat.shiftLeft_eq, Nat.shiftRight_eq_div_pow]
    norm_num
    omega
  have b20 : (((c >>> 4) &&& 0xff) <<< 24) &&& 0xff = 0 := by
    norm_num at hmod8c
    rw [hmod8c, Nat.shiftLeft_eq]
    omega
  unfold Rec.write
  rw [show ((spliceEdns (badversMsg c)).edns.toRecord).name = "." from rfl,
    show ((spliceEdns (badversMsg c)).edns.toRecord).rtype = 41 from rfl,
    show ((spliceEdns (badversMsg c)).edns.toRecord).rclass = 512 from rfl,
    hV,
    show ((spliceEdns (badversMsg c)).edns.toRecord).data = RecordData.opt [] from by with_unfolding_all rfl]
  rw [show writeNameBW ⟨[0, 0, 0, c &&& 0x0f, 0, 0, 0, 0, 0, 0, 0, 1, 0, 0, 0, 0, 0, 0, 0, 0, 0, 0, 0], 12⟩ "." none false = .ok (⟨[0, 0, 0, c &&& 0x0f, 0, 0, 0, 0, 0, 0, 0, 1, 0, 0, 0, 0, 0, 0, 0, 0, 0, 0, 0], 13⟩, 1) from by with_unfolding_all rfl]
  dsimp only
  rw [show Writer.writeU16BE ⟨[0, 0, 0, c &&& 0x0f, 0, 0, 0, 0, 0, 0, 0, 1, 0, 0, 0, 0, 0, 0, 0, 0, 0, 0, 0], 13⟩ 41 = .ok ⟨[0, 0, 0, c &&& 0x0f, 0, 0, 0, 0, 0, 0, 0, 1, 0, 0, 41, 0, 0, 0, 0, 0, 0, 0, 0], 15⟩ from by with_unfolding_all rfl]
  dsimp only
  rw [show Writer.writeU16BE ⟨[0, 0, 0, c &&& 0x0f, 0, 0, 0, 0, 0, 0, 0, 1, 0, 0, 41, 0, 0, 0, 0, 0, 0, 0, 0], 15⟩ 512 = .ok ⟨[0, 0, 0, c &&& 0x0f, 0, 0, 0, 0, 0, 0, 0, 1, 0, 0, 41, 2, 0, 0, 0, 0, 0, 0, 0], 17⟩ from by with_unfolding_all rfl]
  dsimp only
  rw [show Writer.writeU32BE ⟨[0, 0, 0, c &&& 0x0f, 0, 0, 0, 0, 0, 0, 0, 1, 0, 0, 41, 2, 0, 0, 0, 0, 0, 0, 0], 17⟩ (((c >>> 4) &&& 0xff) <<< 24) =
    .ok ⟨[0, 0, 0, c &&& 0x0f, 0, 0, 0, 0, 0, 0, 0, 1, 0, 0, 41, 2, 0, (c >>> 4) &&& 0xff, 0, 0, 0, 0, 0], 21⟩ from by
      unfold Writer.writeU32BE
      rw [if_pos ⟨by
          rw [Nat.shiftLeft_eq]
          exact le_trans (Nat.mul_le_mul_right _ hx) (by norm_num),
        by norm_num⟩]
      rw [b17, b18, b19, b20]
      rfl]
  dsimp only
  rw [show (RecordData.opt []).getSize = .ok 0 from by with_unfolding_all rfl]
  dsimp only
  rw [show Writer.writeU16BE ⟨[0, 0, 0, c &&& 0x0f, 0, 0, 0, 0, 0, 0, 0, 1, 0, 0, 41, 2, 0, (c >>> 4) &&& 0xff, 0, 0, 0, 0, 0], 21⟩ 0 = .ok ⟨[0, 0, 0, c &&& 0x0f, 0, 0, 0, 0, 0, 0, 0, 1, 0, 0, 41, 2, 0, (c >>> 4) &&& 0xff, 0, 0, 0, 0, 0], 23⟩ from by with_unfolding_all rfl]
  dsimp only
  rw [show (RecordData.opt []).write ⟨[0, 0, 0, c &&& 0x0f, 0, 0, 0, 0, 0, 0, 0, 1, 0, 0, 41, 2, 0, (c >>> 4) &&& 0xff, 0, 0, 0, 0, 0], 23⟩ = .ok ⟨[0, 0, 0, c &&& 0x0f, 0, 0, 0, 0, 0, 0, 0, 1, 0, 0, 41, 2, 0, (c >>> 4) &&& 0xff, 0, 0, 0, 0, 0], 23⟩ from by with_unfolding_all rfl]

theorem encodeBadvers (c : Nat) (h15 : 0x0f < c) :
    (badversMsg c).encode false = .ok (bufBadvers (c &&& 0x0f) ((c >>> 4) &&& 0xff)) := by
  unfold Msg.encode Msg.encodeFull
  rw [badversMsg_getSizes]
  dsimp only
  unfold Msg.write
  rw [show ((badversMsg c).bodyLength : Int) = 1 from by with_unfolding_all rfl]
  dsimp only
  rw [show (if (-1 : Int) = -1 then (1 : Int) else -1) = 1 from by with_unfolding_all rfl]
  rw [writeHeader_badvers]
  dsimp only
  rw [show (badversMsg c).answer = ([] : List Rec) from rfl,
    show (badversMsg c).authority = ([] : List Rec) from rfl,
    show (badversMsg c).additional = ([] : List Rec) from by with_unfolding_all rfl]
  rw [show writeRecs ([] : List Rec) ⟨[0, 0, 0, c &&& 0x0f, 0, 0, 0, 0, 0, 0, 0, 1, 0, 0, 0, 0, 0, 0, 0, 0, 0, 0, 0], 12⟩ 1 [] =
    .ok (⟨[0, 0, 0, c &&& 0x0f, 0, 0, 0, 0, 0, 0, 0, 1, 0, 0, 0, 0, 0, 0, 0, 0, 0, 0, 0], 12⟩, 1, [], false) from by with_unfolding_all rfl]
  dsimp only
  simp only [Bool.false_eq_true, if_false]
  rw [show writeRecs ([] : List Rec) ⟨[0, 0, 0, c &&& 0x0f, 0, 0, 0, 0, 0, 0, 0, 1, 0, 0, 0, 0, 0, 0, 0, 0, 0, 0, 0], 12⟩ 1 [] =
    .ok (⟨[0, 0, 0, c &&& 0x0f, 0, 0, 0, 0, 0, 0, 0, 1, 0, 0, 0, 0, 0, 0, 0, 0, 0, 0, 0], 12⟩, 1, [], false) from by with_unfolding_all rfl]
  dsimp only
  simp only [Bool.false_eq_true, if_false]
  rw [show writeRecs ([] : List Rec) ⟨[0, 0, 0, c &&& 0x0f, 0, 0, 0, 0, 0, 0, 0, 1, 0, 0, 0, 0, 0, 0, 0, 0, 0, 0, 0], 12⟩ 1 [] =
    .ok (⟨[0, 0, 0, c &&& 0x0f, 0, 0, 0, 0, 0, 0, 0, 1, 0, 0, 0, 0, 0, 0, 0, 0, 0, 0, 0], 12⟩, 1, [], false) from by with_unfolding_all rfl]
  dsimp only
  simp only [Bool.false_eq_true, if_false]
  unfold writeEdnsTail
  dsimp only
  rw [if_pos (show (0x0f : Nat) < (badversMsg c).code from h15)]
  rw [if_pos (show (spliceEdns (badversMsg c)).edns.enabled = true from rfl)]
  rw [writeOpt_badvers]
  dsimp only
  rw [if_pos (show ((1 : Int) - 1) = 0 from rfl)]
  dsimp only
  rw [show Writer.render ⟨[0, 0, 0, c &&& 0x0f, 0, 0, 0, 0, 0, 0, 0, 1, 0, 0, 41, 2, 0, (c >>> 4) &&& 0xff, 0, 0, 0, 0, 0], 23⟩ = .ok ([0, 0, 0, c &&& 0x0f, 0, 0, 0, 0, 0, 0, 0, 1, 0, 0, 41, 2, 0, (c >>> 4) &&& 0xff, 0, 0, 0, 0, 0]) from by
    unfold Writer.render
    rw [if_pos (show (23 : Nat) = ([0, 0, 0, c &&& 0x0f, 0, 0, 0, 0, 0, 0, 0, 1, 0, 0, 41, 2, 0, (c >>> 4) &&& 0xff, 0, 0, 0, 0, 0] : List Nat).length from rfl)]]
  rfl

end Bns

namespace Bns

theorem or_and_right (x y z : Nat) : (x ||| y) &&& z = (x &&& z) ||| (y &&& z) := by
  rw [Nat.and_comm, Nat.and_or_distrib_left, Nat.and_comm z x, Nat.and_comm z y]

theorem headerBits_nibble (flags opcode code : Nat) (items body : Int) :
    (headerBits flags opcode code items body) &&& 0x0f = code &&& 0x0f := by
  unfold headerBits
  dsimp only
  split
  · rw [or_and_right, or_and_right]
    rw [show flagsTC &&& 0x0f = 0 from by with_unfolding_all rfl, Nat.or_zero]
    rw [Nat.and_assoc, show (0xfffffff0 : Nat) &&& 0x0f = 0 from by with_unfolding_all rfl,
      Nat.and_zero, Nat.zero_or]
    rw [Nat.and_assoc, show (0x0f : Nat) &&& 0x0f = 0x0f from by with_unfolding_all rfl]
  · rw [or_and_right]
    rw [Nat.and_assoc, show (0xfffffff0 : Nat) &&& 0x0f = 0 from by with_unfolding_all rfl,
      Nat.and_zero, Nat.zero_or]
    rw [Nat.and_assoc, show (0x0f : Nat) &&& 0x0f = 0x0f from by with_unfolding_all rfl]

theorem setRecord_splice (m : Msg) (e0 : Edns) (h4096 : m.code < 4096) :
    (e0.setRecord ((spliceEdns m).edns.toRecord)).code = m.code >>> 4 := by
  have hb : m.edns.version &&& 0xff < 2 ^ 8 := lt_of_le_of_lt Nat.and_le_right (by norm_num)
  have hf : m.edns.flags &&& 0xffff < 2 ^ 16 := lt_of_le_of_lt Nat.and_le_right (by norm_num)
  have ha : (m.code >>> 4) &&& 0xff = m.code >>> 4 := by
    have h := Nat.and_pow_two_sub_one_eq_mod (m.code >>> 4) 8
    norm_num at h
    rw [h]
    apply Nat.mod_eq_of_lt
    rw [Nat.shiftRight_eq_div_pow]
    omega
  have hV : ((spliceEdns m).edns.toRecord).ttl =
      (((m.code >>> 4) &&& 0xff) <<< 24) ||| ((m.edns.version &&& 0xff) <<< 16) |||
        (m.edns.flags &&& 0xffff) := by
    show ((((spliceEdns m).edns.code &&& 0xff) <<< 24) |||
        (((spliceEdns m).edns.version &&& 0xff) <<< 16)) |||
        ((spliceEdns m).edns.flags &&& 0xffff) =
      ((((m.code >>> 4) &&& 0xff) <<< 24) ||| ((m.edns.version &&& 0xff) <<< 16)) |||
        (m.edns.flags &&& 0xffff)
    rw [show (spliceEdns m).edns.code = m.code >>> 4 from rfl,
      show (spliceEdns m).edns.version = m.edns.version from rfl,
      show (spliceEdns m).edns.flags = m.edns.flags from rfl]
  show (((spliceEdns m).edns.toRecord).ttl >>> 24) &&& 0xff = m.code >>> 4
  rw [hV, Nat.or_assoc, Nat.shiftLeft_eq, Nat.shiftLeft_eq]
  rw [show (m.edns.version &&& 0xff) * 2 ^ 16 ||| (m.edns.flags &&& 0xffff) =
      (m.edns.version &&& 0xff) * 2 ^ 16 + (m.edns.flags &&& 0xffff) from by
    rw [Nat.mul_comm]
    exact (Nat.mul_add_lt_is_or hf _).symm]
  rw [show ((m.code >>> 4) &&& 0xff) * 2 ^ 24 |||
      ((m.edns.version &&& 0xff) * 2 ^ 16 + (m.edns.flags &&& 0xffff)) =
      ((m.code >>> 4) &&& 0xff) * 2 ^ 24 +
      ((m.edns.version &&& 0xff) * 2 ^ 16 + (m.edns.flags &&& 0xffff)) from by
    rw [Nat.mul_comm]
    exact (Nat.mul_add_lt_is_or (show (m.edns.version &&& 0xff) * 2 ^ 16 +
      (m.edns.flags &&& 0xffff) < 2 ^ 24 from by omega) _).symm]
  rw [Nat.shiftRight_eq_div_pow]
  rw [show (((m.code >>> 4) &&& 0xff) * 2 ^ 24 +
      ((m.edns.version &&& 0xff) * 2 ^ 16 + (m.edns.flags &&& 0xffff))) / 2 ^ 24 =
      (m.code >>> 4) &&& 0xff from by omega]
  rw [Nat.and_assoc, show (0xff : Nat) &&& 0xff = 0xff from by with_unfolding_all rfl]
  exact ha

theorem code_reassemble (m : Msg) (e0 : Edns) (h4096 : m.code < 4096)
    (items body : Int) :
    ((headerBits m.flags m.opcode m.code items body) &&& 0x0f) |||
      ((e0.setRecord ((spliceEdns m).edns.toRecord)).code <<< 4) = m.code := by
  rw [headerBits_nibble, setRecord_splice m e0 h4096]
  have h1 := Nat.and_pow_two_sub_one_eq_mod m.code 4
  norm_num at h1
  rw [h1, Nat.shiftRight_eq_div_pow, Nat.shiftLeft_eq]
  norm_num
  rw [Nat.or_comm, Nat.mul_comm,
    ← Nat.mul_add_lt_is_or (show m.code % 16 < 2 ^ 4 from by omega)]
  omega

theorem except_ok_bind {α β : Type} (x : α) (f : α → Except Err β) :
    ((Except.ok x : Except Err α) >>= f) = f x := rfl

theorem roundBadvers (c : Nat) (h15 : 0x0f < c) (h4096 : c < 4096) :
    ((badversMsg c).encode false >>= Msg.decode).map Msg.code = .ok c := by
  rw [encodeBadvers c h15]
  rw [except_ok_bind]
  rw [decodeBadvers _ _ (lt_of_le_of_lt Nat.and_le_right (by norm_num))
    (lt_of_le_of_lt Nat.and_le_right (by norm_num))]
  congr 1
  have hc4 : (c >>> 4) &&& 0xff = c >>> 4 := by
    have h := Nat.and_pow_two_sub_one_eq_mod (c >>> 4) 8
    norm_num at h
    rw [h]
    apply Nat.mod_eq_of_lt
    rw [Nat.shiftRight_eq_div_pow]
    omega
  rw [hc4]
  have h1 := Nat.and_pow_two_sub_one_eq_mod c 4
  norm_num at h1
  rw [h1, Nat.shiftRight_eq_div_pow, Nat.shiftLeft_eq]
  norm_num
  rw [Nat.or_comm, Nat.mul_comm,
    ← Nat.mul_add_lt_is_or (show c % 16 < 2 ^ 4 from by omega)]
  omega

end Bns

namespace Bns

/-- C3 amended: for every message `m` whose 12-bit logical response code
exceeds 15 (and is below 4096): (i) the header flags word emitted by `write`
carries the low nibble `code &&& 0x0f` whatever the message's flags, opcode
and truncation state; (ii) the OPT record built after the extended-code
receiver mutation carries `code >>> 4` in the top byte of its TTL, as
recovered by `EDNS.setRecord`, whatever the message's EDNS version and flags
and whatever the receiving EDNS state; (iii) the reader's reassembly
`(bits &&& 0x0f) ||| (edns.code <<< 4)` applied to those two stored fields
restores exactly the code; and (iv) the minimal EDNS-enabled message with
that code survives a full encode/decode round trip. -/
theorem claimC3_amended (m : Msg) (h15 : 0x0f < m.code) (h4096 : m.code < 4096) :
    (∀ items body : Int,
      (headerBits m.flags m.opcode m.code items body) &&& 0x0f = m.code &&& 0x0f) ∧
    (∀ e0 : Edns, (e0.setRecord ((spliceEdns m).edns.toRecord)).code = m.code >>> 4) ∧
    (∀ (items body : Int) (e0 : Edns),
      ((headerBits m.flags m.opcode m.code items body) &&& 0x0f) |||
        ((e0.setRecord ((spliceEdns m).edns.toRecord)).code <<< 4) = m.code) ∧
    ((badversMsg m.code).encode false >>= Msg.decode).map Msg.code = .ok m.code :=
  ⟨fun items body => headerBits_nibble m.flags m.opcode m.code items body,
   fun e0 => setRecord_splice m e0 h4096,
   fun items body e0 => code_reassemble m e0 h4096 items body,
   roundBadvers m.code h15 h4096⟩

/-- C3 witness: the amended statement applied at the BADVERS message itself
(code 16): its OPT TTL top byte stores `16 >>> 4 = 1` and the encode/decode
round trip returns code 16. -/
theorem claimC3_witness :
    (emptyEdns.setRecord ((spliceEdns (badversMsg 16)).edns.toRecord)).code = 1 ∧
    ((badversMsg 16).encode false >>= Msg.decode).map Msg.code = .ok 16 := by
  have h := claimC3_amended (badversMsg 16) (by decide) (by decide)
  exact ⟨h.2.1 emptyEdns, h.2.2.2⟩

end Bns
